import Mathlib

/-!
# OMAP4 power management (`arch/arm/mach-omap2/pm44xx.c`)

A shallow embedding of `set_pwrdm_state`, `omap4_pm_suspend`,
`omap4_pm_enter` and `pwrdms_setup`.  The powerdomain / clockdomain / register primitives the file
calls (`pwrdm_read_next_pwrst`, `pwrdm_set_next_pwrst`, `omap2_clkdm_wakeup`,
`omap_readl`, ...) live outside the file; they are taken as a parameter
(`Hal`), and every call made through it is recorded, with its return value,
in a trace.
-/

namespace Pm44xx

/-! ## Constants of the headers -/

/-- Modelled from the spec: the power state `OFF`, bottom of the ordering
`OFF < RETENTION < INACTIVE < ON` (`PWRDM_POWER_OFF` of `plat/powerdomain.h`). -/
def PWRDM_POWER_OFF : Nat := 0

/-- Modelled from the spec: the power state `RETENTION` (`PWRDM_POWER_RET`). -/
def PWRDM_POWER_RET : Nat := 1

/-- Modelled from the spec: the power state `INACTIVE` (`PWRDM_POWER_INACTIVE`). -/
def PWRDM_POWER_INACTIVE : Nat := 2

/-- Modelled from the spec: the power state `ON`, top of the ordering
(`PWRDM_POWER_ON`). -/
def PWRDM_POWER_ON : Nat := 3

/-- Modelled from the spec: the errno behind `InvalidArgument` (`EINVAL` of
`errno.h`); the code returns its negation. -/
def EINVAL : Int := 22

/-- Modelled from the spec: the suspend depth "standby" (`PM_SUSPEND_STANDBY`
of `linux/suspend.h`). -/
def PM_SUSPEND_STANDBY : Int := 1

/-- Modelled from the spec: the suspend depth "preserve-memory sleep"
(`PM_SUSPEND_MEM` of `linux/suspend.h`). -/
def PM_SUSPEND_MEM : Int := 3

/-- Modelled from the spec: the errno of a failed allocation (`ENOMEM` of
`errno.h`); `pwrdms_setup` returns its negation. -/
def ENOMEM : Int := 12

/-- Address of the SCU (cluster) power status register used by
`omap4_pm_suspend`. -/
def SCU_PWR_ST : Nat := 0x48240008

/-- Conversion of a C `int` result to `u32`. -/
def toU32 (r : Int) : Nat := (r % 4294967296).toNat

/-! ## Data model -/

/-- The fields of `struct powerdomain` that `pm44xx.c` reads: the name, the
bit mask `pwrsts` of supported power states (bit `s` set: state `s` is
supported) and the associated clock domains (as addresses; a missing first
entry reads as the null pointer `0`). -/
structure powerdomain where
  name : String
  pwrsts : Nat
  pwrdm_clkdms : List Nat
  deriving DecidableEq, Repr

/-- A `struct powerdomain *` as `set_pwrdm_state` receives it: `NULL`, an
error-encoded pointer (`IS_ERR`), or a pointer to a power domain. -/
inductive pwrdm_ptr where
  | null : pwrdm_ptr
  | err (errno : Nat) : pwrdm_ptr
  | valid (pwrdm : powerdomain) : pwrdm_ptr
  deriving DecidableEq, Repr

/-- The calls `pm44xx.c` makes into the hardware access layer. -/
inductive HwCall where
  | pwrdm_read_next_pwrst (pwrdm : powerdomain) : HwCall
  | pwrdm_read_pwrst (pwrdm : powerdomain) : HwCall
  | omap2_clkdm_wakeup (clkdm : Nat) : HwCall
  | omap2_clkdm_allow_idle (clkdm : Nat) : HwCall
  | pwrdm_wait_transition (pwrdm : powerdomain) : HwCall
  | pwrdm_set_next_pwrst (pwrdm : powerdomain) (pwrst : Nat) : HwCall
  | pwrdm_state_switch (pwrdm : powerdomain) : HwCall
  | pwrdm_has_hdwr_sar (pwrdm : powerdomain) : HwCall
  | pwrdm_enable_hdwr_sar (pwrdm : powerdomain) : HwCall
  | omap_readl (pa : Nat) : HwCall
  | omap_writel (v : Nat) (pa : Nat) : HwCall
  | wfi : HwCall
  deriving DecidableEq, Repr

/-- A hardware access layer over hardware states `σ`: what each call returns
(as a C `int`; `0` for the `void` ones) and the hardware state it leaves. -/
structure Hal (σ : Type) where
  exec : HwCall → σ → Int × σ

/-- One recorded call together with the value it returned. -/
structure HwEvent where
  call : HwCall
  ret : Int
  deriving DecidableEq, Repr

/-- The machine state threaded through the code: the hardware state and the
trace of hardware calls made so far, oldest first. -/
structure Run (σ : Type) where
  hw : σ
  trace : List HwEvent

/-- Perform one hardware call: run it on the hardware and record it. -/
def hwcall {σ : Type} (hal : Hal σ) (c : HwCall) (s : Run σ) : Int × Run σ :=
  let r := hal.exec c s.hw
  (r.1, { hw := r.2, trace := s.trace ++ [{ call := c, ret := r.1 }] })

/-! ## `set_pwrdm_state` -/

/-- The test `pwrdm->pwrsts & (1 << state)` of the clamp loop; the shift is
taken in 32 bits. -/
def pwrsts_has (pwrsts state : Nat) : Bool :=
  pwrsts &&& ((1 <<< state) % 4294967296) != 0

/-- The clamp loop of `set_pwrdm_state`:
`while (!(pwrdm->pwrsts & (1 << state))) { if (state == PWRDM_POWER_OFF) return ret; state--; }`.
`some t` is the value of `state` when the loop is left normally, `none` is
the `return ret` taken inside the loop at `PWRDM_POWER_OFF`. -/
def clamp_state (pwrsts : Nat) : Nat → Option Nat
  | 0 => if pwrsts_has pwrsts 0 then some 0 else none
  | state + 1 =>
    if pwrsts_has pwrsts (state + 1) then some (state + 1)
    else clamp_state pwrsts state

/-- The statement `state--` on a `u32`: it wraps to `0xFFFFFFFF` at `0`. -/
def u32_dec (state : Nat) : Nat := (state + 4294967295) % 4294967296

/-- What a run of the clamp loop did: how it was left (`some t`: normally,
with `state = t`; `none`: by the `return ret` inside), the shift counts of
the `1 << state` it evaluated, in order, and the number of `state--` it
executed. -/
structure ClampRun where
  result : Option Nat
  shifts : List Nat
  decrements : Nat
  deriving DecidableEq, Repr

/-- The clamp loop of `set_pwrdm_state` run on the machine, one iteration per
unit of fuel, with `state` a `u32` decremented by `u32_dec`; `none` when the
fuel runs out before the loop is left. -/
def clamp_loop (pwrsts : Nat) : Nat → Nat → Option ClampRun
  | 0, _ => none
  | fuel + 1, state =>
    if pwrsts_has pwrsts state then
      some { result := some state, shifts := [state], decrements := 0 }
    else if state = PWRDM_POWER_OFF then
      some { result := none, shifts := [state], decrements := 0 }
    else
      match clamp_loop pwrsts fuel (u32_dec state) with
      | none => none
      | some r =>
        some { result := r.result, shifts := state :: r.shifts,
               decrements := r.decrements + 1 }

/-- The body of `set_pwrdm_state` after the clamp loop, lines 56-81, run with
the clamped `state`. -/
def set_pwrdm_state_tail {σ : Type} (hal : Hal σ) (pwrdm : powerdomain)
    (state : Nat) (s : Run σ) : Int × Run σ :=
  let r1 := hwcall hal (.pwrdm_read_next_pwrst pwrdm) s
  let cur_state := toU32 r1.1
  if cur_state = state then (0, r1.2)
  else
    let r2 := hwcall hal (.pwrdm_read_pwrst pwrdm) r1.2
    let sleep_switch : Bool := decide (r2.1 < (PWRDM_POWER_ON : Int))
    let s3 :=
      if sleep_switch then
        (hwcall hal (.pwrdm_wait_transition pwrdm)
          (hwcall hal (.omap2_clkdm_wakeup (pwrdm.pwrdm_clkdms.headD 0)) r2.2).2).2
      else r2.2
    let r4 := hwcall hal (.pwrdm_set_next_pwrst pwrdm state) s3
    if r4.1 ≠ 0 then (r4.1, r4.2)
    else if sleep_switch then
      (r4.1, (hwcall hal (.pwrdm_state_switch pwrdm)
        (hwcall hal (.pwrdm_wait_transition pwrdm)
          (hwcall hal (.omap2_clkdm_allow_idle (pwrdm.pwrdm_clkdms.headD 0)) r4.2).2).2).2)
    else (r4.1, r4.2)

/-- `int set_pwrdm_state(struct powerdomain *pwrdm, u32 state)`. -/
def set_pwrdm_state {σ : Type} (hal : Hal σ) (pwrdm : pwrdm_ptr) (state : Nat)
    (s : Run σ) : Int × Run σ :=
  match pwrdm with
  | .null => (-EINVAL, s)
  | .err _ => (-EINVAL, s)
  | .valid p =>
    match clamp_state p.pwrsts state with
    | none => (0, s)
    | some t => set_pwrdm_state_tail hal p t s

/-! ## Suspend -/

/-- `static int omap4_pm_suspend(void)`; the file-level pointers `cpu0_pwrdm`
and `mpu_pwrdm` are parameters.  The results of the four
`pwrdm_set_next_pwrst` calls are dropped, as in the source. -/
def omap4_pm_suspend {σ : Type} (hal : Hal σ) (cpu0_pwrdm mpu_pwrdm : powerdomain)
    (s : Run σ) : Int × Run σ :=
  let r1 := hwcall hal (.omap_readl SCU_PWR_ST) s
  let scu_pwr_st := toU32 r1.1 ||| 0x2
  let s2 := (hwcall hal (.omap_writel scu_pwr_st SCU_PWR_ST) r1.2).2
  let s3 := (hwcall hal (.pwrdm_set_next_pwrst cpu0_pwrdm PWRDM_POWER_RET) s2).2
  let s4 := (hwcall hal (.pwrdm_set_next_pwrst mpu_pwrdm PWRDM_POWER_RET) s3).2
  let s5 := (hwcall hal .wfi s4).2
  let s6 := (hwcall hal (.pwrdm_set_next_pwrst mpu_pwrdm PWRDM_POWER_ON) s5).2
  let s7 := (hwcall hal (.pwrdm_set_next_pwrst cpu0_pwrdm PWRDM_POWER_ON) s6).2
  let r8 := hwcall hal (.omap_readl SCU_PWR_ST) s7
  let scu_pwr_st := toU32 r8.1 &&& 0xFFFFFFFD
  let s9 := (hwcall hal (.omap_writel scu_pwr_st SCU_PWR_ST) r8.2).2
  (0, s9)

/-- `static int omap4_pm_enter(suspend_state_t suspend_state)`. -/
def omap4_pm_enter {σ : Type} (hal : Hal σ) (cpu0_pwrdm mpu_pwrdm : powerdomain)
    (suspend_state : Int) (s : Run σ) : Int × Run σ :=
  if suspend_state = PM_SUSPEND_STANDBY ∨ suspend_state = PM_SUSPEND_MEM then
    omap4_pm_suspend hal cpu0_pwrdm mpu_pwrdm s
  else (-EINVAL, s)

/-- The suspend sequence as the spec words it: as `omap4_pm_suspend`, but
with the four domain requests made through `set_pwrdm_state` ("Request the
primary CPU power domain and the MPU domain to RETENTION via `RequestState`").
It is the comparison point for the source's `omap4_pm_suspend`, not a
translation of it. -/
def omap4_pm_suspend_via_request {σ : Type} (hal : Hal σ)
    (cpu0_pwrdm mpu_pwrdm : powerdomain) (s : Run σ) : Int × Run σ :=
  let r1 := hwcall hal (.omap_readl SCU_PWR_ST) s
  let scu_pwr_st := toU32 r1.1 ||| 0x2
  let s2 := (hwcall hal (.omap_writel scu_pwr_st SCU_PWR_ST) r1.2).2
  let s3 := (set_pwrdm_state hal (.valid cpu0_pwrdm) PWRDM_POWER_RET s2).2
  let s4 := (set_pwrdm_state hal (.valid mpu_pwrdm) PWRDM_POWER_RET s3).2
  let s5 := (hwcall hal .wfi s4).2
  let s6 := (set_pwrdm_state hal (.valid mpu_pwrdm) PWRDM_POWER_ON s5).2
  let s7 := (set_pwrdm_state hal (.valid cpu0_pwrdm) PWRDM_POWER_ON s6).2
  let r8 := hwcall hal (.omap_readl SCU_PWR_ST) s7
  let scu_pwr_st := toU32 r8.1 &&& 0xFFFFFFFD
  let s9 := (hwcall hal (.omap_writel scu_pwr_st SCU_PWR_ST) r8.2).2
  (0, s9)

/-! ## Registration of the power domains -/

/-- The `struct power_state` of the file: the domain and its default next
state (the list node is the position in `pwrst_list`). -/
structure power_state where
  pwrdm : powerdomain
  next_state : Nat
  deriving DecidableEq, Repr

/-- The state `pwrdms_setup` works on: the machine state, the registry
`pwrst_list`, and the outcomes of the coming `kmalloc` calls (`true`: memory
is returned; an exhausted list: memory is returned). -/
structure Kernel (σ : Type) where
  run : Run σ
  pwrst_list : List power_state
  kmalloc_results : List Bool

/-- One `kmalloc(sizeof(struct power_state), GFP_ATOMIC)`: whether it returned
memory, and the state with that outcome consumed. -/
def kmalloc {σ : Type} (k : Kernel σ) : Bool × Kernel σ :=
  match k.kmalloc_results with
  | [] => (true, k)
  | b :: rest => (b, { k with kmalloc_results := rest })

/-- The machine state after the save/restore step of `pwrdms_setup`:
`if (pwrdm_has_hdwr_sar(pwrdm)) pwrdm_enable_hdwr_sar(pwrdm);`. -/
def enable_sar_if_capable {σ : Type} (hal : Hal σ) (pwrdm : powerdomain)
    (s : Run σ) : Run σ :=
  let r := hwcall hal (.pwrdm_has_hdwr_sar pwrdm) s
  if r.1 ≠ 0 then (hwcall hal (.pwrdm_enable_hdwr_sar pwrdm) r.2).2 else r.2

/-- `static int __init pwrdms_setup(struct powerdomain *pwrdm, void *unused)`;
`list_add` puts the new entry at the head of `pwrst_list`. -/
def pwrdms_setup {σ : Type} (hal : Hal σ) (pwrdm : powerdomain) (k : Kernel σ) :
    Int × Kernel σ :=
  if pwrdm.pwrsts = 0 then (0, k)
  else
    let a := kmalloc k
    if a.1 = false then (-ENOMEM, a.2)
    else
      let pwrst : power_state := { pwrdm := pwrdm, next_state := PWRDM_POWER_RET }
      let pwrst_list := pwrst :: a.2.pwrst_list
      let s := enable_sar_if_capable hal pwrdm a.2.run
      let r := set_pwrdm_state hal (.valid pwrst.pwrdm) pwrst.next_state s
      (r.1, { run := r.2, pwrst_list := pwrst_list,
              kmalloc_results := a.2.kmalloc_results })

/-! ## Observations and laws of the hardware access layer -/

/-- The `next_state` of a domain as the code sees it: what
`pwrdm_read_next_pwrst` returns on hardware state `hw`, as a `u32`. -/
def next_pwrst {σ : Type} (hal : Hal σ) (hw : σ) (pwrdm : powerdomain) : Nat :=
  toU32 (hal.exec (.pwrdm_read_next_pwrst pwrdm) hw).1

/-- The value of a register as the code sees it: what `omap_readl` returns on
hardware state `hw`, as a `u32`. -/
def reg_value {σ : Type} (hal : Hal σ) (hw : σ) (pa : Nat) : Nat :=
  toU32 (hal.exec (.omap_readl pa) hw).1

/-- The hardware-confirmed current state of a domain as the code sees it:
what `pwrdm_read_pwrst` returns on hardware state `hw`, as a `u32`. -/
def cur_pwrst {σ : Type} (hal : Hal σ) (hw : σ) (pwrdm : powerdomain) : Nat :=
  toU32 (hal.exec (.pwrdm_read_pwrst pwrdm) hw).1

/-- The hardware calls recorded in a machine state, oldest first, without
their results. -/
def calls_of {σ : Type} (s : Run σ) : List HwCall := s.trace.map (fun e => e.call)

/-- The hardware-confirmed current state as `set_pwrdm_state` reads it: the
result of `pwrdm_read_pwrst`, called right after the next-state read. -/
def pwrst_seen {σ : Type} (hal : Hal σ) (p : powerdomain) (s : Run σ) : Int :=
  (hwcall hal (.pwrdm_read_pwrst p) (hwcall hal (.pwrdm_read_next_pwrst p) s).2).1

/-- The machine state in which `set_pwrdm_state` issues its next-state write:
after the two state reads and, when the current state read is below `ON`,
after the clock-domain wake and the wait. -/
def before_write {σ : Type} (hal : Hal σ) (p : powerdomain) (s : Run σ) : Run σ :=
  let s2 := (hwcall hal (.pwrdm_read_pwrst p) (hwcall hal (.pwrdm_read_next_pwrst p) s).2).2
  if pwrst_seen hal p s < (PWRDM_POWER_ON : Int) then
    (hwcall hal (.pwrdm_wait_transition p)
      (hwcall hal (.omap2_clkdm_wakeup (p.pwrdm_clkdms.headD 0)) s2).2).2
  else s2

/-- A hardware layer whose successful next-state write makes the next-state
read return the written value: the read of a domain returns the value of the
last successful write to that domain, every call other than a next-state write
to the domain leaving it as it is. -/
structure NextStateLaws {σ : Type} (hal : Hal σ) : Prop where
  write_read : ∀ (hw : σ) (d : powerdomain) (st : Nat), st < 4294967296 →
    (hal.exec (.pwrdm_set_next_pwrst d st) hw).1 = 0 →
    next_pwrst hal (hal.exec (.pwrdm_set_next_pwrst d st) hw).2 d = st
  frame : ∀ (hw : σ) (c : HwCall) (d : powerdomain),
    (∀ st, c ≠ .pwrdm_set_next_pwrst d st) →
    next_pwrst hal (hal.exec c hw).2 d = next_pwrst hal hw d

/-- The hardware state reached from `hw` by making the given calls in
order. -/
def replay {σ : Type} (hal : Hal σ) : List HwCall → σ → σ
  | [], hw => hw
  | c :: cs, hw => replay hal cs (hal.exec c hw).2

/-- The calls that concern a power domain or a clock domain: everything but
the register accesses and the wait-for-interrupt. -/
def is_domain_call : HwCall → Bool
  | .omap_readl _ => false
  | .omap_writel _ _ => false
  | .wfi => false
  | _ => true

/-- The next-state writes among the hardware calls. -/
def is_next_state_write : HwCall → Bool
  | .pwrdm_set_next_pwrst _ _ => true
  | _ => false

/-- A register file in which a register reads as the last value written to
it: a write makes the read return the written value, and no other call (a
next-state write, the wait-for-interrupt, a read, a write to another address)
changes what the register reads as. -/
structure RegisterLaws {σ : Type} (hal : Hal σ) : Prop where
  write_read : ∀ (hw : σ) (v pa : Nat), v < 4294967296 →
    reg_value hal (hal.exec (.omap_writel v pa) hw).2 pa = v
  frame : ∀ (hw : σ) (c : HwCall) (pa : Nat),
    (∀ v, c ≠ .omap_writel v pa) →
    reg_value hal (hal.exec c hw).2 pa = reg_value hal hw pa

/-! ## A simulated hardware layer -/

/-- Lookup in an association list, `0` when the key is absent. -/
def lookupD {α : Type} [DecidableEq α] : List (α × Nat) → α → Nat
  | [], _ => 0
  | (k, v) :: t, a => if k = a then v else lookupD t a

/-- A simulated hardware state: the programmed next state and the current
state of each domain, the memory-mapped registers, the value every
`pwrdm_set_next_pwrst` returns (`0`: the write is accepted), and the domains
that have hardware save/restore. -/
structure SimHw where
  next : List (powerdomain × Nat)
  cur : List (powerdomain × Nat)
  regs : List (Nat × Nat)
  set_ret : Int
  sar : List powerdomain := []
  deriving DecidableEq, Repr

/-- The simulated hardware layer: reads return the stored values, an accepted
next-state write stores its value, `pwrdm_state_switch` adopts the programmed
state as current, register writes store, everything else only returns `0`. -/
def simHal : Hal SimHw where
  exec := fun c hw =>
    match c with
    | .pwrdm_read_next_pwrst d => ((lookupD hw.next d : Nat), hw)
    | .pwrdm_read_pwrst d => ((lookupD hw.cur d : Nat), hw)
    | .pwrdm_set_next_pwrst d st =>
      if hw.set_ret = 0 then (0, { hw with next := (d, st % 4294967296) :: hw.next })
      else (hw.set_ret, hw)
    | .pwrdm_state_switch d => (0, { hw with cur := (d, lookupD hw.next d) :: hw.cur })
    | .pwrdm_has_hdwr_sar d => (if d ∈ hw.sar then 1 else 0, hw)
    | .omap_readl pa => ((lookupD hw.regs pa : Nat), hw)
    | .omap_writel v pa => (0, { hw with regs := (pa, v % 4294967296) :: hw.regs })
    | _ => (0, hw)

/-! ## Sample domains and hardware states -/

/-- A domain that supports `ON` only. -/
def dom_on_only : powerdomain :=
  { name := "on_only_pwrdm", pwrsts := 0x8, pwrdm_clkdms := [1] }

/-- A domain whose supported states are exactly `ON` and `RETENTION`. -/
def dom_on_ret : powerdomain :=
  { name := "mpu_pwrdm", pwrsts := 0xA, pwrdm_clkdms := [2] }

/-- A domain whose supported states are `ON`, `INACTIVE` and `RETENTION`. -/
def dom_core : powerdomain :=
  { name := "core_pwrdm", pwrsts := 0xE, pwrdm_clkdms := [3] }

/-- A second CPU-side domain supporting `ON` and `RETENTION`. -/
def dom_cpu0 : powerdomain :=
  { name := "cpu0_pwrdm", pwrsts := 0xA, pwrdm_clkdms := [4] }

/-- Simulated hardware with every listed domain programmed to and currently
at `ON`, writes accepted. -/
def hw_all_on : SimHw :=
  { next := [(dom_on_only, 3), (dom_on_ret, 3), (dom_core, 3), (dom_cpu0, 3)]
    cur := [(dom_on_only, 3), (dom_on_ret, 3), (dom_core, 3), (dom_cpu0, 3)]
    regs := [(SCU_PWR_ST, 0x101)]
    set_ret := 0 }

/-- Simulated hardware with every listed domain programmed to `RETENTION` and
currently at `RETENTION`, writes accepted. -/
def hw_all_ret : SimHw :=
  { next := [(dom_on_only, 1), (dom_on_ret, 1), (dom_core, 1), (dom_cpu0, 1)]
    cur := [(dom_on_only, 1), (dom_on_ret, 1), (dom_core, 1), (dom_cpu0, 1)]
    regs := [(SCU_PWR_ST, 0x101)]
    set_ret := 0 }

/-- Simulated hardware as `hw_all_ret`, but every next-state write is refused
with `-EINVAL`. -/
def hw_ret_reject : SimHw := { hw_all_ret with set_ret := -22 }


/-- Simulated hardware as `hw_all_on`, the `ON`/`RETENTION` domain having
hardware save/restore. -/
def hw_on_sar : SimHw := { hw_all_on with sar := [dom_on_ret] }

/-- A kernel state at startup: empty registry, simulated hardware
`hw_on_sar`, every allocation succeeding. -/
def kernel_boot : Kernel SimHw :=
  { run := { hw := hw_on_sar, trace := [] }, pwrst_list := [], kmalloc_results := [] }

/-! ## Basic facts -/

theorem toU32_natCast (n : Nat) (h : n < 4294967296) : toU32 (n : Int) = n := by
  unfold toU32
  omega

theorem toU32_lt (r : Int) : toU32 r < 4294967296 := by
  unfold toU32
  omega

theorem hwcall_fst {σ : Type} (hal : Hal σ) (c : HwCall) (s : Run σ) :
    (hwcall hal c s).1 = (hal.exec c s.hw).1 := rfl

theorem hwcall_hw {σ : Type} (hal : Hal σ) (c : HwCall) (s : Run σ) :
    (hwcall hal c s).2.hw = (hal.exec c s.hw).2 := rfl

theorem hwcall_trace {σ : Type} (hal : Hal σ) (c : HwCall) (s : Run σ) :
    (hwcall hal c s).2.trace
      = s.trace ++ [{ call := c, ret := (hal.exec c s.hw).1 }] := rfl

/-- What the clamp loop returns when it leaves normally: a supported state,
at most the requested one, with no supported state strictly between. -/
theorem clamp_state_some (pwrsts : Nat) :
    ∀ (state t : Nat), clamp_state pwrsts state = some t →
      pwrsts_has pwrsts t = true ∧ t ≤ state ∧
      ∀ u, t < u → u ≤ state → pwrsts_has pwrsts u = false := by
  intro state
  induction state with
  | zero =>
    intro t h
    unfold clamp_state at h
    split at h
    · simp only [Option.some.injEq] at h
      subst h
      refine ⟨by assumption, le_refl _, ?_⟩
      intro u h1 h2
      omega
    · simp at h
  | succ n ih =>
    intro t h
    unfold clamp_state at h
    split at h
    · simp only [Option.some.injEq] at h
      subst h
      refine ⟨by assumption, le_refl _, ?_⟩
      intro u h1 h2
      omega
    · rename_i hn
      obtain ⟨h1, h2, h3⟩ := ih t h
      refine ⟨h1, by omega, ?_⟩
      intro u hu1 hu2
      by_cases hu : u = n + 1
      · subst hu
        simpa using hn
      · exact h3 u hu1 (by omega)

/-- The clamp loop returns from inside exactly when no state at or below the
requested one is supported. -/
theorem clamp_state_none (pwrsts : Nat) :
    ∀ (state : Nat), clamp_state pwrsts state = none ↔
      ∀ u, u ≤ state → pwrsts_has pwrsts u = false := by
  intro state
  induction state with
  | zero =>
    unfold clamp_state
    constructor
    · intro h u hu
      have : u = 0 := by omega
      subst this
      split at h
      · simp at h
      · simpa using ‹¬ pwrsts_has pwrsts 0 = true›
    · intro h
      simp [h 0 (le_refl _)]
  | succ n ih =>
    unfold clamp_state
    constructor
    · intro h u hu
      split at h
      · simp at h
      · rename_i hn
        by_cases hu1 : u = n + 1
        · subst hu1
          simpa using hn
        · exact (ih.mp h) u (by omega)
    · intro h
      rw [if_neg (by simp [h (n + 1) (le_refl _)])]
      exact ih.mpr (fun u hu => h u (by omega))

theorem simHal_nextStateLaws : NextStateLaws simHal := by
  constructor
  · intro hw d st hst h
    by_cases h0 : hw.set_ret = 0
    · simp [next_pwrst, simHal, h0, lookupD]
      unfold toU32
      omega
    · simp [simHal, h0] at h
  · intro hw c d hc
    cases c with
    | pwrdm_set_next_pwrst d2 st =>
      have hd : d2 ≠ d := by
        intro e
        subst e
        exact hc st rfl
      by_cases h0 : hw.set_ret = 0
      · simp [next_pwrst, simHal, h0, lookupD, hd]
      · simp [next_pwrst, simHal, h0]
    | _ => simp [next_pwrst, simHal]

/-! ## The part of `set_pwrdm_state` after the clamp -/

/-- When the next-state read already returns the clamped target, the rest of
`set_pwrdm_state` is that single read and success. -/
theorem set_pwrdm_state_tail_skip {σ : Type} (hal : Hal σ) (p : powerdomain)
    (t : Nat) (s : Run σ) (h : next_pwrst hal s.hw p = t) :
    set_pwrdm_state_tail hal p t s
      = (0, (hwcall hal (.pwrdm_read_next_pwrst p) s).2) := by
  have h2 : toU32 (hwcall hal (.pwrdm_read_next_pwrst p) s).1 = t := h
  unfold set_pwrdm_state_tail
  simp only [h2, if_true]

/-- When the next-state read differs from the clamped target and the write is
refused, the function returns the write's result right after the write. -/
theorem set_pwrdm_state_tail_reject {σ : Type} (hal : Hal σ) (p : powerdomain)
    (t : Nat) (s : Run σ) (h : next_pwrst hal s.hw p ≠ t)
    (hw : (hwcall hal (.pwrdm_set_next_pwrst p t) (before_write hal p s)).1 ≠ 0) :
    set_pwrdm_state_tail hal p t s
      = hwcall hal (.pwrdm_set_next_pwrst p t) (before_write hal p s) := by
  have h2 : ¬ toU32 (hwcall hal (.pwrdm_read_next_pwrst p) s).1 = t := h
  unfold before_write pwrst_seen at hw ⊢
  unfold set_pwrdm_state_tail
  by_cases hsl : (hwcall hal (.pwrdm_read_pwrst p)
      (hwcall hal (.pwrdm_read_next_pwrst p) s).2).1 < (PWRDM_POWER_ON : Int)
  · simp only [hsl, if_true, decide_True] at hw ⊢
    simp only [h2, if_false, hw, ne_eq, not_false_eq_true, if_true]
  · simp only [hsl, if_false, decide_False] at hw ⊢
    simp [h2, hw]

/-- When the next-state read differs from the clamped target, the current
state read is below `ON` and the write succeeds, the write is followed by
allow-idle, wait and state switch. -/
theorem set_pwrdm_state_tail_sleep {σ : Type} (hal : Hal σ) (p : powerdomain)
    (t : Nat) (s : Run σ) (h : next_pwrst hal s.hw p ≠ t)
    (hsl : pwrst_seen hal p s < (PWRDM_POWER_ON : Int))
    (hw : (hwcall hal (.pwrdm_set_next_pwrst p t) (before_write hal p s)).1 = 0) :
    set_pwrdm_state_tail hal p t s
      = (0, (hwcall hal (.pwrdm_state_switch p)
          (hwcall hal (.pwrdm_wait_transition p)
            (hwcall hal (.omap2_clkdm_allow_idle (p.pwrdm_clkdms.headD 0))
              (hwcall hal (.pwrdm_set_next_pwrst p t) (before_write hal p s)).2).2).2).2) := by
  have h2 : ¬ toU32 (hwcall hal (.pwrdm_read_next_pwrst p) s).1 = t := h
  unfold before_write at hw ⊢
  rw [if_pos hsl] at hw ⊢
  unfold pwrst_seen at hsl
  unfold set_pwrdm_state_tail
  simp only [hsl, if_true, decide_True] at hw ⊢
  simp only [h2, hw, if_false, ne_eq, not_true_eq_false, if_true]

/-- When the next-state read differs from the clamped target, the current
state read is not below `ON` and the write succeeds, the write is the last
call. -/
theorem set_pwrdm_state_tail_awake {σ : Type} (hal : Hal σ) (p : powerdomain)
    (t : Nat) (s : Run σ) (h : next_pwrst hal s.hw p ≠ t)
    (hsl : ¬ pwrst_seen hal p s < (PWRDM_POWER_ON : Int))
    (hw : (hwcall hal (.pwrdm_set_next_pwrst p t) (before_write hal p s)).1 = 0) :
    set_pwrdm_state_tail hal p t s
      = (0, (hwcall hal (.pwrdm_set_next_pwrst p t) (before_write hal p s)).2) := by
  have h2 : ¬ toU32 (hwcall hal (.pwrdm_read_next_pwrst p) s).1 = t := h
  unfold before_write at hw ⊢
  rw [if_neg hsl] at hw ⊢
  unfold pwrst_seen at hsl
  unfold set_pwrdm_state_tail
  simp only [hsl, if_false, decide_False] at hw ⊢
  simp only [h2, hw, if_false, ne_eq, not_true_eq_false, Bool.false_eq_true]

/-- Over a lawful next-state register, a successful run of the part after the
clamp leaves the next-state read at the clamped target. -/
theorem set_pwrdm_state_tail_next {σ : Type} (hal : Hal σ)
    (laws : NextStateLaws hal) (p : powerdomain) (t : Nat) (ht : t < 4294967296)
    (s : Run σ) (hret : (set_pwrdm_state_tail hal p t s).1 = 0) :
    next_pwrst hal (set_pwrdm_state_tail hal p t s).2.hw p = t := by
  have fr : ∀ (c : HwCall) (r : Run σ), (∀ st, c ≠ .pwrdm_set_next_pwrst p st) →
      next_pwrst hal (hwcall hal c r).2.hw p = next_pwrst hal r.hw p := by
    intro c r hc
    rw [hwcall_hw]
    exact laws.frame r.hw c p hc
  have wr : ∀ (r : Run σ), (hwcall hal (.pwrdm_set_next_pwrst p t) r).1 = 0 →
      next_pwrst hal (hwcall hal (.pwrdm_set_next_pwrst p t) r).2.hw p = t := by
    intro r hr
    rw [hwcall_hw]
    exact laws.write_read r.hw p t ht hr
  by_cases hskip : next_pwrst hal s.hw p = t
  · rw [set_pwrdm_state_tail_skip hal p t s hskip]
    rw [fr _ _ (by intro st; simp)]
    exact hskip
  · by_cases hw : (hwcall hal (.pwrdm_set_next_pwrst p t) (before_write hal p s)).1 = 0
    · by_cases hsl : pwrst_seen hal p s < (PWRDM_POWER_ON : Int)
      · rw [set_pwrdm_state_tail_sleep hal p t s hskip hsl hw]
        rw [fr _ _ (by intro st; simp), fr _ _ (by intro st; simp),
          fr _ _ (by intro st; simp)]
        exact wr _ hw
      · rw [set_pwrdm_state_tail_awake hal p t s hskip hsl hw]
        exact wr _ hw
    · rw [set_pwrdm_state_tail_reject hal p t s hskip hw] at hret
      exact absurd hret hw

/-- A valid pointer whose domain supports no state at or below the requested
one: `set_pwrdm_state` returns `0` from inside the clamp loop. -/
theorem set_pwrdm_state_valid_none {σ : Type} (hal : Hal σ) (p : powerdomain)
    (S : Nat) (s : Run σ) (hc : clamp_state p.pwrsts S = none) :
    set_pwrdm_state hal (.valid p) S s = (0, s) := by
  unfold set_pwrdm_state
  simp only [hc]

/-- A valid pointer whose clamp loop ends at `t`: `set_pwrdm_state` continues
with the part after the clamp. -/
theorem set_pwrdm_state_valid_some {σ : Type} (hal : Hal σ) (p : powerdomain)
    (S t : Nat) (s : Run σ) (hc : clamp_state p.pwrsts S = some t) :
    set_pwrdm_state hal (.valid p) S s = set_pwrdm_state_tail hal p t s := by
  unfold set_pwrdm_state
  simp only [hc]

/-! ## C1: the next state after a successful request -/

/-- C1, as stated, fails: for the domain supporting `ON` only, programmed to
`ON`, over the (lawful) simulated hardware, `set_pwrdm_state(D, RETENTION)`
returns `0`, yet the next state afterwards is `ON`, which is above the
requested `RETENTION`: the claimed "member of the supported states or `OFF`,
and at most the requested state" is false there. -/
theorem set_pwrdm_state_next_above_request :
    NextStateLaws simHal ∧
    ¬ ((set_pwrdm_state simHal (.valid dom_on_only) PWRDM_POWER_RET
          { hw := hw_all_on, trace := [] }).1 = 0 →
        (pwrsts_has dom_on_only.pwrsts
            (next_pwrst simHal (set_pwrdm_state simHal (.valid dom_on_only) PWRDM_POWER_RET
              { hw := hw_all_on, trace := [] }).2.hw dom_on_only) = true ∨
          next_pwrst simHal (set_pwrdm_state simHal (.valid dom_on_only) PWRDM_POWER_RET
              { hw := hw_all_on, trace := [] }).2.hw dom_on_only = PWRDM_POWER_OFF) ∧
        next_pwrst simHal (set_pwrdm_state simHal (.valid dom_on_only) PWRDM_POWER_RET
            { hw := hw_all_on, trace := [] }).2.hw dom_on_only ≤ PWRDM_POWER_RET) :=
  ⟨simHal_nextStateLaws, by decide⟩

/-- C1, amended: for every valid domain `p` (any supported-state mask) and
every requested state `S ≤ ON`, over a hardware layer whose next-state read
returns the last successfully written value, whenever
`set_pwrdm_state(p, S)` returns `0`: if `p` supports some state at or below
`S`, the next state afterwards is a supported state of `p` and is at most `S`;
if `p` supports no state at or below `S`, the call has left the hardware and
the trace of hardware calls exactly as they were (`OFF` is not written). -/
theorem set_pwrdm_state_next_legal {σ : Type} (hal : Hal σ)
    (laws : NextStateLaws hal) (p : powerdomain) (S : Nat)
    (hS : S ≤ PWRDM_POWER_ON) (s : Run σ)
    (hret : (set_pwrdm_state hal (.valid p) S s).1 = 0) :
    ((∃ T, T ≤ S ∧ pwrsts_has p.pwrsts T = true) →
      pwrsts_has p.pwrsts
          (next_pwrst hal (set_pwrdm_state hal (.valid p) S s).2.hw p) = true ∧
        next_pwrst hal (set_pwrdm_state hal (.valid p) S s).2.hw p ≤ S) ∧
    ((∀ T, T ≤ S → pwrsts_has p.pwrsts T = false) →
      (set_pwrdm_state hal (.valid p) S s).2 = s) := by
  cases hc : clamp_state p.pwrsts S with
  | none =>
    rw [set_pwrdm_state_valid_none hal p S s hc]
    refine ⟨?_, fun _ => rfl⟩
    rintro ⟨T, hT1, hT2⟩
    have := (clamp_state_none p.pwrsts S).mp hc T hT1
    simp [this] at hT2
  | some t =>
    rw [set_pwrdm_state_valid_some hal p S t s hc] at hret ⊢
    obtain ⟨h1, h2, _⟩ := clamp_state_some p.pwrsts S t hc
    have ht : t < 4294967296 := by
      unfold PWRDM_POWER_ON at hS
      omega
    have hn := set_pwrdm_state_tail_next hal laws p t ht s hret
    refine ⟨fun _ => ?_, fun hno => ?_⟩
    · rw [hn]
      exact ⟨h1, h2⟩
    · have := hno t h2
      simp [this] at h1

/-- Witness of C1 (amended): the `ON`/`RETENTION` domain at `ON`, request
`INACTIVE`: the next state afterwards is supported and at most `INACTIVE`. -/
theorem set_pwrdm_state_next_legal_witness :
    pwrsts_has dom_on_ret.pwrsts
        (next_pwrst simHal (set_pwrdm_state simHal (.valid dom_on_ret) PWRDM_POWER_INACTIVE
          { hw := hw_all_on, trace := [] }).2.hw dom_on_ret) = true ∧
      next_pwrst simHal (set_pwrdm_state simHal (.valid dom_on_ret) PWRDM_POWER_INACTIVE
          { hw := hw_all_on, trace := [] }).2.hw dom_on_ret ≤ PWRDM_POWER_INACTIVE :=
  (set_pwrdm_state_next_legal simHal simHal_nextStateLaws dom_on_ret PWRDM_POWER_INACTIVE
    (by decide) { hw := hw_all_on, trace := [] } (by decide)).1
    ⟨PWRDM_POWER_RET, by decide, by decide⟩

/-! ## C2: the `ON`/`RETENTION` domain asked for `OFF` -/

/-- C2, as stated, fails: for the domain supporting exactly `ON` and
`RETENTION`, at `ON`, `set_pwrdm_state(domain, OFF)` makes no next-state
write of `RETENTION`, no wait, and the current state afterwards is still `ON`,
not `RETENTION`. -/
theorem set_pwrdm_state_off_not_clamped_up :
    ¬ (HwCall.pwrdm_set_next_pwrst dom_on_ret PWRDM_POWER_RET ∈
          calls_of (set_pwrdm_state simHal (.valid dom_on_ret) PWRDM_POWER_OFF
            { hw := hw_all_on, trace := [] }).2 ∧
        HwCall.pwrdm_wait_transition dom_on_ret ∈
          calls_of (set_pwrdm_state simHal (.valid dom_on_ret) PWRDM_POWER_OFF
            { hw := hw_all_on, trace := [] }).2 ∧
        cur_pwrst simHal (set_pwrdm_state simHal (.valid dom_on_ret) PWRDM_POWER_OFF
            { hw := hw_all_on, trace := [] }).2.hw dom_on_ret = PWRDM_POWER_RET) ∧
    cur_pwrst simHal hw_all_on dom_on_ret = PWRDM_POWER_ON ∧
    calls_of (set_pwrdm_state simHal (.valid dom_on_ret) PWRDM_POWER_OFF
        { hw := hw_all_on, trace := [] }).2 = [] := by
  decide

/-- C2, amended: for a domain whose supported states are exactly `ON` and
`RETENTION` (mask `0xA`), over any hardware layer and whatever the current
state, `set_pwrdm_state(domain, OFF)` finds no supported state at or below
`OFF` (the clamp only walks downward), returns `0` and makes no hardware
call, so next state and current state stay what they were.  The clamp to
`RETENTION` is what a request of `INACTIVE` gets: when the next-state read is
not `RETENTION` already, the current state read is not below `ON` and the
write succeeds, the calls are the two state reads and the write of
`RETENTION`, with no wait and no state switch. -/
theorem set_pwrdm_state_on_ret_domain {σ : Type} (hal : Hal σ)
    (name : String) (clkdms : List Nat) (s : Run σ) :
    clamp_state 0xA PWRDM_POWER_OFF = none ∧
    set_pwrdm_state hal
        (.valid { name := name, pwrsts := 0xA, pwrdm_clkdms := clkdms })
        PWRDM_POWER_OFF s = (0, s) ∧
    clamp_state 0xA PWRDM_POWER_INACTIVE = some PWRDM_POWER_RET ∧
    (next_pwrst hal s.hw { name := name, pwrsts := 0xA, pwrdm_clkdms := clkdms }
          ≠ PWRDM_POWER_RET →
      ¬ pwrst_seen hal { name := name, pwrsts := 0xA, pwrdm_clkdms := clkdms } s
          < (PWRDM_POWER_ON : Int) →
      (hwcall hal
          (.pwrdm_set_next_pwrst { name := name, pwrsts := 0xA, pwrdm_clkdms := clkdms }
            PWRDM_POWER_RET)
          (before_write hal { name := name, pwrsts := 0xA, pwrdm_clkdms := clkdms } s)).1 = 0 →
      (set_pwrdm_state hal
          (.valid { name := name, pwrsts := 0xA, pwrdm_clkdms := clkdms })
          PWRDM_POWER_INACTIVE s).1 = 0 ∧
      calls_of (set_pwrdm_state hal
          (.valid { name := name, pwrsts := 0xA, pwrdm_clkdms := clkdms })
          PWRDM_POWER_INACTIVE s).2
        = calls_of s ++
          [.pwrdm_read_next_pwrst { name := name, pwrsts := 0xA, pwrdm_clkdms := clkdms },
           .pwrdm_read_pwrst { name := name, pwrsts := 0xA, pwrdm_clkdms := clkdms },
           .pwrdm_set_next_pwrst { name := name, pwrsts := 0xA, pwrdm_clkdms := clkdms }
             PWRDM_POWER_RET]) := by
  have c0 : clamp_state 0xA PWRDM_POWER_OFF = none := by decide
  have c2 : clamp_state 0xA PWRDM_POWER_INACTIVE = some PWRDM_POWER_RET := by decide
  refine ⟨c0, set_pwrdm_state_valid_none hal _ _ s c0, c2, ?_⟩
  intro hne hsl hw
  rw [set_pwrdm_state_valid_some hal _ _ _ s c2,
    set_pwrdm_state_tail_awake hal _ _ s hne hsl hw]
  refine ⟨rfl, ?_⟩
  unfold before_write
  rw [if_neg hsl]
  simp [calls_of, hwcall]

/-- Witness of C2 (amended): on the simulated hardware with the domain at
`ON`, a request of `INACTIVE` makes the two reads and the write of
`RETENTION`, and a request of `OFF` changes nothing. -/
theorem set_pwrdm_state_on_ret_domain_witness :
    set_pwrdm_state simHal (.valid dom_on_ret) PWRDM_POWER_OFF
        { hw := hw_all_on, trace := [] } = (0, { hw := hw_all_on, trace := [] }) ∧
    calls_of (set_pwrdm_state simHal (.valid dom_on_ret) PWRDM_POWER_INACTIVE
        { hw := hw_all_on, trace := [] }).2
      = [.pwrdm_read_next_pwrst dom_on_ret, .pwrdm_read_pwrst dom_on_ret,
         .pwrdm_set_next_pwrst dom_on_ret PWRDM_POWER_RET] :=
  ⟨(set_pwrdm_state_on_ret_domain simHal "mpu_pwrdm" [2]
      { hw := hw_all_on, trace := [] }).2.1,
   ((set_pwrdm_state_on_ret_domain simHal "mpu_pwrdm" [2]
      { hw := hw_all_on, trace := [] }).2.2.2 (by decide) (by decide) (by decide)).2⟩

/-! ## C3: idempotence -/

/-- C3: idempotence of `set_pwrdm_state`.  For every valid domain `p` and
state `S` whose clamp ends at a supported state `t`: if the next-state read
already returns `t`, the call returns `0` and its only hardware call is that
read (no clock-domain wake, no wait, no next-state write).  Consequently,
over a hardware layer whose next-state read returns the last successfully
written value, a second call `set_pwrdm_state(p, S)` made right after a
successful first one returns `0` and adds nothing to the trace but next-state
reads: it performs no hardware write. -/
theorem set_pwrdm_state_idempotent {σ : Type} (hal : Hal σ) (p : powerdomain)
    (S : Nat) (hS : S < 4294967296) (s : Run σ) :
    (∀ t, clamp_state p.pwrsts S = some t → next_pwrst hal s.hw p = t →
      set_pwrdm_state hal (.valid p) S s
        = (0, { hw := (hal.exec (.pwrdm_read_next_pwrst p) s.hw).2,
                trace := s.trace ++
                  [{ call := .pwrdm_read_next_pwrst p,
                     ret := (hal.exec (.pwrdm_read_next_pwrst p) s.hw).1 }] })) ∧
    (NextStateLaws hal → (set_pwrdm_state hal (.valid p) S s).1 = 0 →
      (set_pwrdm_state hal (.valid p) S (set_pwrdm_state hal (.valid p) S s).2).1 = 0 ∧
      ∃ extra,
        (set_pwrdm_state hal (.valid p) S (set_pwrdm_state hal (.valid p) S s).2).2.trace
          = (set_pwrdm_state hal (.valid p) S s).2.trace ++ extra ∧
        ∀ e ∈ extra, e.call = .pwrdm_read_next_pwrst p) := by
  constructor
  · intro t hc hn
    rw [set_pwrdm_state_valid_some hal p S t s hc, set_pwrdm_state_tail_skip hal p t s hn]
    rfl
  · intro laws hret
    cases hc : clamp_state p.pwrsts S with
    | none =>
      rw [set_pwrdm_state_valid_none hal p S s hc, set_pwrdm_state_valid_none hal p S s hc]
      exact ⟨rfl, [], by simp, by simp⟩
    | some t =>
      obtain ⟨_, h2, _⟩ := clamp_state_some p.pwrsts S t hc
      rw [set_pwrdm_state_valid_some hal p S t s hc] at hret ⊢
      have hn := set_pwrdm_state_tail_next hal laws p t (by omega) s hret
      rw [set_pwrdm_state_valid_some hal p S t _ hc,
        set_pwrdm_state_tail_skip hal p t _ hn]
      refine ⟨rfl, _, rfl, ?_⟩
      simp

/-- Witness of C3: supported `ON`, `INACTIVE`, `RETENTION`, next state already
`RETENTION`, request `RETENTION`: success with the single next-state read; and
from `ON`, the call repeated after a successful one succeeds again. -/
theorem set_pwrdm_state_idempotent_witness :
    set_pwrdm_state simHal (.valid dom_core) PWRDM_POWER_RET
        { hw := hw_all_ret, trace := [] }
      = (0, { hw := hw_all_ret,
              trace := [{ call := .pwrdm_read_next_pwrst dom_core, ret := 1 }] }) ∧
    (set_pwrdm_state simHal (.valid dom_core) PWRDM_POWER_RET
      (set_pwrdm_state simHal (.valid dom_core) PWRDM_POWER_RET
        { hw := hw_all_on, trace := [] }).2).1 = 0 :=
  ⟨(set_pwrdm_state_idempotent simHal dom_core PWRDM_POWER_RET (by decide)
      { hw := hw_all_ret, trace := [] }).1 PWRDM_POWER_RET (by decide) (by decide),
   ((set_pwrdm_state_idempotent simHal dom_core PWRDM_POWER_RET (by decide)
      { hw := hw_all_on, trace := [] }).2 simHal_nextStateLaws (by decide)).1⟩

/-! ## C4, C5: the write path -/

/-- The calls recorded up to the next-state write, from an empty trace: the
two state reads, then wake and wait when the current state read is below
`ON`. -/
theorem calls_of_before_write {σ : Type} (hal : Hal σ) (p : powerdomain) (hw : σ) :
    calls_of (before_write hal p { hw := hw, trace := [] })
      = if pwrst_seen hal p { hw := hw, trace := [] } < (PWRDM_POWER_ON : Int) then
          [.pwrdm_read_next_pwrst p, .pwrdm_read_pwrst p,
           .omap2_clkdm_wakeup (p.pwrdm_clkdms.headD 0), .pwrdm_wait_transition p]
        else [.pwrdm_read_next_pwrst p, .pwrdm_read_pwrst p] := by
  unfold before_write
  split_ifs <;> simp [calls_of, hwcall]

/-- No next-state write is recorded before `set_pwrdm_state` issues its
own. -/
theorem no_write_before_write {σ : Type} (hal : Hal σ) (p : powerdomain) (hw : σ)
    (d : powerdomain) (st : Nat) :
    HwCall.pwrdm_set_next_pwrst d st ∉
      calls_of (before_write hal p { hw := hw, trace := [] }) := by
  rw [calls_of_before_write]
  split_ifs <;> simp

/-- The trace of a single hardware call, by calls. -/
theorem calls_of_hwcall {σ : Type} (hal : Hal σ) (c : HwCall) (s : Run σ) :
    calls_of (hwcall hal c s).2 = calls_of s ++ [c] := by
  simp [calls_of, hwcall]

/-- An event of a trace has its call among the calls. -/
theorem call_mem_calls_of {σ : Type} (s : Run σ) (e : HwEvent) (h : e ∈ s.trace) :
    e.call ∈ calls_of s :=
  List.mem_map_of_mem (fun e => e.call) h

/-- The cases of a run of `set_pwrdm_state` on a valid pointer, from an empty
trace, in which some next-state write returning `e` is recorded: the clamp
ended at some `t`, the next-state read differed from `t`, and the function's
own write returned `e`. -/
theorem set_pwrdm_state_reaches_write {σ : Type} (hal : Hal σ) (p : powerdomain)
    (S : Nat) (hw : σ) (e : Int)
    (hreach : ∃ d st, ({ call := .pwrdm_set_next_pwrst d st, ret := e } : HwEvent) ∈
      (set_pwrdm_state hal (.valid p) S { hw := hw, trace := [] }).2.trace) :
    ∃ t, clamp_state p.pwrsts S = some t ∧ next_pwrst hal hw p ≠ t ∧
      (hwcall hal (.pwrdm_set_next_pwrst p t)
        (before_write hal p { hw := hw, trace := [] })).1 = e := by
  obtain ⟨d, st, hmem⟩ := hreach
  cases hc : clamp_state p.pwrsts S with
  | none =>
    rw [set_pwrdm_state_valid_none hal p S _ hc] at hmem
    simp at hmem
  | some t =>
    rw [set_pwrdm_state_valid_some hal p S t _ hc] at hmem
    refine ⟨t, rfl, ?_⟩
    by_cases hskip : next_pwrst hal hw p = t
    · rw [set_pwrdm_state_tail_skip hal p t _ hskip] at hmem
      simp [hwcall] at hmem
    · refine ⟨hskip, ?_⟩
      have hnb := no_write_before_write hal p hw d st
      have key : ∀ (r : Run σ),
          ({ call := .pwrdm_set_next_pwrst d st, ret := e } : HwEvent) ∈ r.trace →
          HwCall.pwrdm_set_next_pwrst d st ∈ calls_of r := fun r h =>
        call_mem_calls_of r _ h
      by_cases hwz : (hwcall hal (.pwrdm_set_next_pwrst p t)
          (before_write hal p { hw := hw, trace := [] })).1 = 0
      · by_cases hsl : pwrst_seen hal p { hw := hw, trace := [] } < (PWRDM_POWER_ON : Int)
        · rw [set_pwrdm_state_tail_sleep hal p t _ hskip hsl hwz] at hmem
          simp only [hwcall_trace, List.mem_append, List.mem_singleton,
            HwEvent.mk.injEq] at hmem
          rcases hmem with (((hm | hm) | hm) | hm) | hm
          · exact absurd (key _ hm) hnb
          · exact hm.2.symm
          · simp at hm
          · simp at hm
          · simp at hm
        · rw [set_pwrdm_state_tail_awake hal p t _ hskip hsl hwz] at hmem
          simp only [hwcall_trace, List.mem_append, List.mem_singleton,
            HwEvent.mk.injEq] at hmem
          rcases hmem with hm | hm
          · exact absurd (key _ hm) hnb
          · exact hm.2.symm
      · rw [set_pwrdm_state_tail_reject hal p t _ hskip hwz] at hmem
        simp only [hwcall_trace, List.mem_append, List.mem_singleton,
          HwEvent.mk.injEq] at hmem
        rcases hmem with hm | hm
        · exact absurd (key _ hm) hnb
        · exact hm.2.symm

/-- C4: clock-domain wake/idle symmetry on the success path.  In every run of
`set_pwrdm_state` (valid pointer, from an empty trace) that records a
next-state write returning `0`: the clamp ended at some `t`; the domain's
first clock domain is woken if and only if the current state read
(`pwrdm_read_pwrst`, not the next state) is below `ON`; when it is, the calls
after the two state reads are exactly wake, wait, write of `t`, allow-idle,
wait, state switch, in that order; when it is not, the only call after the
state reads is the write of `t`. -/
theorem set_pwrdm_state_wake_idle_symmetry {σ : Type} (hal : Hal σ)
    (p : powerdomain) (S : Nat) (hw : σ)
    (hreach : ∃ d st, ({ call := .pwrdm_set_next_pwrst d st, ret := 0 } : HwEvent) ∈
      (set_pwrdm_state hal (.valid p) S { hw := hw, trace := [] }).2.trace) :
    ∃ t, clamp_state p.pwrsts S = some t ∧
      (HwCall.omap2_clkdm_wakeup (p.pwrdm_clkdms.headD 0) ∈
          calls_of (set_pwrdm_state hal (.valid p) S { hw := hw, trace := [] }).2 ↔
        pwrst_seen hal p { hw := hw, trace := [] } < (PWRDM_POWER_ON : Int)) ∧
      (pwrst_seen hal p { hw := hw, trace := [] } < (PWRDM_POWER_ON : Int) →
        calls_of (set_pwrdm_state hal (.valid p) S { hw := hw, trace := [] }).2
          = [.pwrdm_read_next_pwrst p, .pwrdm_read_pwrst p,
             .omap2_clkdm_wakeup (p.pwrdm_clkdms.headD 0), .pwrdm_wait_transition p,
             .pwrdm_set_next_pwrst p t,
             .omap2_clkdm_allow_idle (p.pwrdm_clkdms.headD 0), .pwrdm_wait_transition p,
             .pwrdm_state_switch p]) ∧
      (¬ pwrst_seen hal p { hw := hw, trace := [] } < (PWRDM_POWER_ON : Int) →
        calls_of (set_pwrdm_state hal (.valid p) S { hw := hw, trace := [] }).2
          = [.pwrdm_read_next_pwrst p, .pwrdm_read_pwrst p,
             .pwrdm_set_next_pwrst p t]) := by
  obtain ⟨t, hc, hskip, hwz⟩ := set_pwrdm_state_reaches_write hal p S hw 0 hreach
  refine ⟨t, hc, ?_⟩
  rw [set_pwrdm_state_valid_some hal p S t _ hc]
  by_cases hsl : pwrst_seen hal p { hw := hw, trace := [] } < (PWRDM_POWER_ON : Int)
  · rw [set_pwrdm_state_tail_sleep hal p t _ hskip hsl hwz]
    simp only [calls_of_hwcall, calls_of_before_write, if_pos hsl]
    simp [hsl]
  · rw [set_pwrdm_state_tail_awake hal p t _ hskip hsl hwz]
    simp only [calls_of_hwcall, calls_of_before_write, if_neg hsl]
    simp [hsl]

/-- Witness of C4: the `ON`/`RETENTION` domain at `RETENTION`, request `ON`, on
the simulated hardware: the clock domain is woken and idled around the
write. -/
theorem set_pwrdm_state_wake_idle_symmetry_witness :
    ∃ t, clamp_state dom_on_ret.pwrsts PWRDM_POWER_ON = some t ∧
      (HwCall.omap2_clkdm_wakeup (dom_on_ret.pwrdm_clkdms.headD 0) ∈
          calls_of (set_pwrdm_state simHal (.valid dom_on_ret) PWRDM_POWER_ON
            { hw := hw_all_ret, trace := [] }).2 ↔
        pwrst_seen simHal dom_on_ret { hw := hw_all_ret, trace := [] }
          < (PWRDM_POWER_ON : Int)) ∧
      (pwrst_seen simHal dom_on_ret { hw := hw_all_ret, trace := [] }
          < (PWRDM_POWER_ON : Int) →
        calls_of (set_pwrdm_state simHal (.valid dom_on_ret) PWRDM_POWER_ON
            { hw := hw_all_ret, trace := [] }).2
          = [.pwrdm_read_next_pwrst dom_on_ret, .pwrdm_read_pwrst dom_on_ret,
             .omap2_clkdm_wakeup (dom_on_ret.pwrdm_clkdms.headD 0),
             .pwrdm_wait_transition dom_on_ret,
             .pwrdm_set_next_pwrst dom_on_ret t,
             .omap2_clkdm_allow_idle (dom_on_ret.pwrdm_clkdms.headD 0),
             .pwrdm_wait_transition dom_on_ret,
             .pwrdm_state_switch dom_on_ret]) ∧
      (¬ pwrst_seen simHal dom_on_ret { hw := hw_all_ret, trace := [] }
          < (PWRDM_POWER_ON : Int) →
        calls_of (set_pwrdm_state simHal (.valid dom_on_ret) PWRDM_POWER_ON
            { hw := hw_all_ret, trace := [] }).2
          = [.pwrdm_read_next_pwrst dom_on_ret, .pwrdm_read_pwrst dom_on_ret,
             .pwrdm_set_next_pwrst dom_on_ret t]) :=
  set_pwrdm_state_wake_idle_symmetry simHal dom_on_ret PWRDM_POWER_ON hw_all_ret
    ⟨dom_on_ret, PWRDM_POWER_ON, by decide⟩

/-- C5: hardware-rejected write.  In every run of `set_pwrdm_state` (valid
pointer, from an empty trace) that records a next-state write returning a
non-zero `e`: the function returns exactly `e`; the write is the last call
recorded, so neither allow-idle, nor a wait, nor the state switch follows it;
and the calls before it are the two state reads and, when the current state
read is below `ON`, the clock-domain wake and the wait, which are not undone. -/
theorem set_pwrdm_state_write_rejected {σ : Type} (hal : Hal σ)
    (p : powerdomain) (S : Nat) (hw : σ) (e : Int) (he : e ≠ 0)
    (hreach : ∃ d st, ({ call := .pwrdm_set_next_pwrst d st, ret := e } : HwEvent) ∈
      (set_pwrdm_state hal (.valid p) S { hw := hw, trace := [] }).2.trace) :
    (set_pwrdm_state hal (.valid p) S { hw := hw, trace := [] }).1 = e ∧
    ∃ t, clamp_state p.pwrsts S = some t ∧
      (set_pwrdm_state hal (.valid p) S { hw := hw, trace := [] }).2.trace.getLast?
        = some { call := .pwrdm_set_next_pwrst p t, ret := e } ∧
      calls_of (set_pwrdm_state hal (.valid p) S { hw := hw, trace := [] }).2
        = (if pwrst_seen hal p { hw := hw, trace := [] } < (PWRDM_POWER_ON : Int) then
            [.pwrdm_read_next_pwrst p, .pwrdm_read_pwrst p,
             .omap2_clkdm_wakeup (p.pwrdm_clkdms.headD 0), .pwrdm_wait_transition p]
          else [.pwrdm_read_next_pwrst p, .pwrdm_read_pwrst p])
          ++ [.pwrdm_set_next_pwrst p t] := by
  obtain ⟨t, hc, hskip, hwe⟩ := set_pwrdm_state_reaches_write hal p S hw e hreach
  have hwz : (hwcall hal (.pwrdm_set_next_pwrst p t)
      (before_write hal p { hw := hw, trace := [] })).1 ≠ 0 := by
    rw [hwe]
    exact he
  rw [set_pwrdm_state_valid_some hal p S t _ hc,
    set_pwrdm_state_tail_reject hal p t _ hskip hwz]
  refine ⟨hwe, t, hc, ?_, ?_⟩
  · rw [hwcall_trace, List.getLast?_append, List.getLast?_singleton, ← hwcall_fst, hwe]
    rfl
  · rw [calls_of_hwcall, calls_of_before_write]

/-- Witness of C5: the simulated hardware refusing every next-state write
with `-22`, the domain at `RETENTION` asked for `ON`: the call returns `-22`
and ends at the write, after wake and wait. -/
theorem set_pwrdm_state_write_rejected_witness :
    (set_pwrdm_state simHal (.valid dom_on_ret) PWRDM_POWER_ON
        { hw := hw_ret_reject, trace := [] }).1 = -22 ∧
    ∃ t, clamp_state dom_on_ret.pwrsts PWRDM_POWER_ON = some t ∧
      (set_pwrdm_state simHal (.valid dom_on_ret) PWRDM_POWER_ON
          { hw := hw_ret_reject, trace := [] }).2.trace.getLast?
        = some { call := .pwrdm_set_next_pwrst dom_on_ret t, ret := -22 } ∧
      calls_of (set_pwrdm_state simHal (.valid dom_on_ret) PWRDM_POWER_ON
          { hw := hw_ret_reject, trace := [] }).2
        = (if pwrst_seen simHal dom_on_ret { hw := hw_ret_reject, trace := [] }
              < (PWRDM_POWER_ON : Int) then
            [.pwrdm_read_next_pwrst dom_on_ret, .pwrdm_read_pwrst dom_on_ret,
             .omap2_clkdm_wakeup (dom_on_ret.pwrdm_clkdms.headD 0),
             .pwrdm_wait_transition dom_on_ret]
          else [.pwrdm_read_next_pwrst dom_on_ret, .pwrdm_read_pwrst dom_on_ret])
          ++ [.pwrdm_set_next_pwrst dom_on_ret t] :=
  set_pwrdm_state_write_rejected simHal dom_on_ret PWRDM_POWER_ON hw_ret_reject (-22)
    (by decide) ⟨dom_on_ret, PWRDM_POWER_ON, by decide⟩

/-! ## C6: invalid domain reference -/

/-- C6: with a null or an error-encoded domain pointer, for every requested
state, `set_pwrdm_state` returns `-EINVAL` and leaves the hardware and the
trace of hardware calls untouched (no call of any kind is made).  With a valid
pointer the check never fires: a result of `-EINVAL` can only be the value the
hardware layer returned from the function's own next-state write, which is
then the whole result. -/
theorem set_pwrdm_state_invalid_ref {σ : Type} (hal : Hal σ) (S : Nat) (s : Run σ) :
    set_pwrdm_state hal .null S s = (-EINVAL, s) ∧
    (∀ errno, set_pwrdm_state hal (.err errno) S s = (-EINVAL, s)) ∧
    (∀ p, (set_pwrdm_state hal (.valid p) S s).1 = -EINVAL →
      ∃ t, clamp_state p.pwrsts S = some t ∧ next_pwrst hal s.hw p ≠ t ∧
        (hwcall hal (.pwrdm_set_next_pwrst p t) (before_write hal p s)).1 = -EINVAL ∧
        set_pwrdm_state hal (.valid p) S s
          = hwcall hal (.pwrdm_set_next_pwrst p t) (before_write hal p s)) := by
  refine ⟨rfl, fun _ => rfl, ?_⟩
  intro p hret
  have hne : (-EINVAL : Int) ≠ 0 := by decide
  cases hc : clamp_state p.pwrsts S with
  | none =>
    rw [set_pwrdm_state_valid_none hal p S s hc] at hret
    exact absurd hret.symm hne
  | some t =>
    rw [set_pwrdm_state_valid_some hal p S t s hc] at hret ⊢
    refine ⟨t, rfl, ?_⟩
    by_cases hskip : next_pwrst hal s.hw p = t
    · rw [set_pwrdm_state_tail_skip hal p t s hskip] at hret
      exact absurd hret.symm hne
    · by_cases hwz : (hwcall hal (.pwrdm_set_next_pwrst p t) (before_write hal p s)).1 = 0
      · by_cases hsl : pwrst_seen hal p s < (PWRDM_POWER_ON : Int)
        · rw [set_pwrdm_state_tail_sleep hal p t s hskip hsl hwz] at hret
          exact absurd hret.symm hne
        · rw [set_pwrdm_state_tail_awake hal p t s hskip hsl hwz] at hret
          exact absurd hret.symm hne
      · rw [set_pwrdm_state_tail_reject hal p t s hskip hwz] at hret ⊢
        exact ⟨hskip, hret, rfl⟩

/-- Witness of C6: on the simulated hardware refusing next-state writes with
`-22`, a valid domain's `-EINVAL` is the write's own result. -/
theorem set_pwrdm_state_invalid_ref_witness :
    ∃ t, clamp_state dom_on_ret.pwrsts PWRDM_POWER_ON = some t ∧
      next_pwrst simHal hw_ret_reject dom_on_ret ≠ t ∧
      (hwcall simHal (.pwrdm_set_next_pwrst dom_on_ret t)
        (before_write simHal dom_on_ret { hw := hw_ret_reject, trace := [] })).1 = -EINVAL ∧
      set_pwrdm_state simHal (.valid dom_on_ret) PWRDM_POWER_ON
          { hw := hw_ret_reject, trace := [] }
        = hwcall simHal (.pwrdm_set_next_pwrst dom_on_ret t)
            (before_write simHal dom_on_ret { hw := hw_ret_reject, trace := [] }) :=
  (set_pwrdm_state_invalid_ref simHal PWRDM_POWER_ON
    { hw := hw_ret_reject, trace := [] }).2.2 dom_on_ret (by decide)

/-! ## The suspend sequence -/

theorem simHal_registerLaws : RegisterLaws simHal := by
  constructor
  · intro hw v pa hv
    simp only [reg_value, simHal, lookupD, if_true]
    unfold toU32
    omega
  · intro hw c pa hc
    cases c with
    | omap_writel v2 pa2 =>
      have hd : pa2 ≠ pa := by
        intro e
        subst e
        exact hc v2 rfl
      simp [reg_value, simHal, lookupD, hd]
    | pwrdm_set_next_pwrst d st =>
      by_cases h0 : hw.set_ret = 0
      · simp [reg_value, simHal, h0]
      · simp [reg_value, simHal, h0]
    | _ => simp [reg_value, simHal]

/-- Replaying two call sequences one after the other. -/
theorem replay_append {σ : Type} (hal : Hal σ) (cs ds : List HwCall) (hw : σ) :
    replay hal (cs ++ ds) hw = replay hal ds (replay hal cs hw) := by
  induction cs generalizing hw with
  | nil => rfl
  | cons c cs ih => exact ih (hal.exec c hw).2

/-- Calls other than writes to a register leave what it reads as. -/
theorem reg_value_replay_frame {σ : Type} (hal : Hal σ) (laws : RegisterLaws hal)
    (pa : Nat) (cs : List HwCall) (hw : σ)
    (h : ∀ c ∈ cs, ∀ v, c ≠ .omap_writel v pa) :
    reg_value hal (replay hal cs hw) pa = reg_value hal hw pa := by
  induction cs generalizing hw with
  | nil => rfl
  | cons c cs ih =>
    show reg_value hal (replay hal cs (hal.exec c hw).2) pa = reg_value hal hw pa
    rw [ih _ (fun c2 h2 => h c2 (List.mem_cons_of_mem c h2))]
    exact laws.frame hw c pa (h c (List.mem_cons_self c cs))

/-- Calls other than next-state writes to a domain leave its next state. -/
theorem next_pwrst_replay_frame {σ : Type} (hal : Hal σ) (laws : NextStateLaws hal)
    (d : powerdomain) (cs : List HwCall) (hw : σ)
    (h : ∀ c ∈ cs, ∀ st, c ≠ .pwrdm_set_next_pwrst d st) :
    next_pwrst hal (replay hal cs hw) d = next_pwrst hal hw d := by
  induction cs generalizing hw with
  | nil => rfl
  | cons c cs ih =>
    show next_pwrst hal (replay hal cs (hal.exec c hw).2) d = next_pwrst hal hw d
    rw [ih _ (fun c2 h2 => h c2 (List.mem_cons_of_mem c h2))]
    exact laws.frame hw c d (h c (List.mem_cons_self c cs))

/-- The calls of `omap4_pm_suspend`, from an empty trace: `v` is what the
register reads as at the start, `v2` what it reads as after the first seven
calls. -/
theorem omap4_pm_suspend_calls {σ : Type} (hal : Hal σ)
    (cpu0_pwrdm mpu_pwrdm : powerdomain) (hw : σ) :
    calls_of (omap4_pm_suspend hal cpu0_pwrdm mpu_pwrdm { hw := hw, trace := [] }).2
      = [.omap_readl SCU_PWR_ST,
         .omap_writel (reg_value hal hw SCU_PWR_ST ||| 0x2) SCU_PWR_ST,
         .pwrdm_set_next_pwrst cpu0_pwrdm PWRDM_POWER_RET,
         .pwrdm_set_next_pwrst mpu_pwrdm PWRDM_POWER_RET,
         .wfi,
         .pwrdm_set_next_pwrst mpu_pwrdm PWRDM_POWER_ON,
         .pwrdm_set_next_pwrst cpu0_pwrdm PWRDM_POWER_ON,
         .omap_readl SCU_PWR_ST,
         .omap_writel
           (reg_value hal
              (replay hal
                [.omap_readl SCU_PWR_ST,
                 .omap_writel (reg_value hal hw SCU_PWR_ST ||| 0x2) SCU_PWR_ST,
                 .pwrdm_set_next_pwrst cpu0_pwrdm PWRDM_POWER_RET,
                 .pwrdm_set_next_pwrst mpu_pwrdm PWRDM_POWER_RET,
                 .wfi,
                 .pwrdm_set_next_pwrst mpu_pwrdm PWRDM_POWER_ON,
                 .pwrdm_set_next_pwrst cpu0_pwrdm PWRDM_POWER_ON] hw)
              SCU_PWR_ST &&& 0xFFFFFFFD) SCU_PWR_ST] := rfl

/-- The hardware state `omap4_pm_suspend` leaves is the one reached by its
calls. -/
theorem omap4_pm_suspend_hw {σ : Type} (hal : Hal σ)
    (cpu0_pwrdm mpu_pwrdm : powerdomain) (hw : σ) :
    (omap4_pm_suspend hal cpu0_pwrdm mpu_pwrdm { hw := hw, trace := [] }).2.hw
      = replay hal
          (calls_of (omap4_pm_suspend hal cpu0_pwrdm mpu_pwrdm
            { hw := hw, trace := [] }).2) hw := rfl

/-! ## Bits of the cluster register -/

theorem testBit_two (i : Nat) : (2 : Nat).testBit i = decide (i = 1) := by
  have h := @Nat.testBit_two_pow 1 i
  simp only [pow_one] at h
  rw [h]
  by_cases hi : i = 1 <;> simp [hi, eq_comm]

theorem testBit_clear_mask (i : Nat) :
    (0xFFFFFFFD : Nat).testBit i = (decide (i < 32) && decide (i ≠ 1)) := by
  have h := Nat.testBit_two_pow_sub_succ (x := 2) (n := 32) (by norm_num) i
  have e : (2 ^ 32 - (2 + 1) : Nat) = 0xFFFFFFFD := by norm_num
  rw [e] at h
  rw [h, testBit_two]
  by_cases hi : i = 1 <;> simp [hi]

/-- Masking a 32-bit value with `~0x2` clears bit 1 and keeps the others. -/
theorem clear_bit_testBit (v : Nat) (hv : v < 4294967296) (i : Nat) :
    (v &&& 0xFFFFFFFD).testBit i = (v.testBit i && decide (i ≠ 1)) := by
  rw [Nat.testBit_and, testBit_clear_mask]
  by_cases hi : i < 32
  · simp [hi]
  · have : v.testBit i = false := by
      apply Nat.testBit_lt_two_pow
      calc v < 2 ^ 32 := by norm_num; exact hv
        _ ≤ 2 ^ i := Nat.pow_le_pow_right (by norm_num) (by omega)
    simp [this]

/-- Setting bit 1 of a 32-bit value in which it was clear, then clearing it,
gives the value back. -/
theorem set_then_clear (v : Nat) (hv : v < 4294967296) (h : v &&& 2 = 0) :
    (v ||| 2) &&& 0xFFFFFFFD = v := by
  apply Nat.eq_of_testBit_eq
  intro i
  have hb : (v ||| 2) < 4294967296 := Nat.or_lt_two_pow (n := 32) hv (by norm_num)
  rw [clear_bit_testBit _ hb, Nat.testBit_or, testBit_two]
  by_cases hi : i = 1
  · subst hi
    have : (v &&& 2).testBit 1 = false := by rw [h]; simp
    rw [Nat.testBit_and, testBit_two] at this
    simp at this
    simp [this]
  · simp [hi]

theorem set_bit_and (v : Nat) : (v ||| 2) &&& 2 = 2 := by
  apply Nat.eq_of_testBit_eq
  intro i
  rw [Nat.testBit_and, Nat.testBit_or, testBit_two]
  by_cases hi : i = 1 <;> simp [hi]

theorem clear_bit_and (v : Nat) : (v &&& 0xFFFFFFFD) &&& 2 = 0 := by
  apply Nat.eq_of_testBit_eq
  intro i
  rw [Nat.testBit_and, Nat.testBit_and, testBit_two, testBit_clear_mask]
  by_cases hi : i = 1 <;> simp [hi]

/-! ## C8: the validity gate of Enter -/

/-- C8: `omap4_pm_enter(depth)` runs the suspend sequence if and only if
`depth` is `PM_SUSPEND_STANDBY` or `PM_SUSPEND_MEM`; both run the identical
sequence; for every other depth it returns `-EINVAL` and leaves the hardware
and the trace of hardware calls untouched (no register access, no domain
request, no wait-for-interrupt). -/
theorem omap4_pm_enter_validity_gate {σ : Type} (hal : Hal σ)
    (cpu0_pwrdm mpu_pwrdm : powerdomain) (suspend_state : Int) (s : Run σ) :
    ((suspend_state = PM_SUSPEND_STANDBY ∨ suspend_state = PM_SUSPEND_MEM) ↔
      omap4_pm_enter hal cpu0_pwrdm mpu_pwrdm suspend_state s
        = omap4_pm_suspend hal cpu0_pwrdm mpu_pwrdm s) ∧
    omap4_pm_enter hal cpu0_pwrdm mpu_pwrdm PM_SUSPEND_STANDBY s
      = omap4_pm_enter hal cpu0_pwrdm mpu_pwrdm PM_SUSPEND_MEM s ∧
    (¬ (suspend_state = PM_SUSPEND_STANDBY ∨ suspend_state = PM_SUSPEND_MEM) →
      omap4_pm_enter hal cpu0_pwrdm mpu_pwrdm suspend_state s = (-EINVAL, s)) := by
  refine ⟨⟨fun h => ?_, fun h => ?_⟩, ?_, fun h => ?_⟩
  · unfold omap4_pm_enter
    rw [if_pos h]
  · by_contra hn
    unfold omap4_pm_enter at h
    rw [if_neg hn] at h
    have h1 : (-EINVAL : Int)
        = (omap4_pm_suspend hal cpu0_pwrdm mpu_pwrdm s).1 := congrArg Prod.fst h
    have h2 : (omap4_pm_suspend hal cpu0_pwrdm mpu_pwrdm s).1 = 0 := rfl
    rw [h2] at h1
    exact absurd h1 (by decide)
  · unfold omap4_pm_enter
    rw [if_pos (Or.inl rfl), if_pos (Or.inr rfl)]
  · unfold omap4_pm_enter
    rw [if_neg h]

/-- Witness of C8: depth `0` (`PM_SUSPEND_ON`) is refused without touching the
simulated hardware. -/
theorem omap4_pm_enter_validity_gate_witness :
    omap4_pm_enter simHal dom_cpu0 dom_on_ret 0 { hw := hw_all_on, trace := [] }
      = (-EINVAL, { hw := hw_all_on, trace := [] }) :=
  (omap4_pm_enter_validity_gate simHal dom_cpu0 dom_on_ret 0
    { hw := hw_all_on, trace := [] }).2.2 (by decide)

/-! ## C10: order and fire-and-forget of the suspend sequence -/

/-- C10: for every hardware layer (whatever it returns from each next-state
write) and every hardware state, `omap4_pm_suspend` returns `0` and its
hardware calls are exactly: read the cluster register (`r0`, as a `u32` the
value `v`), write `v | 0x2`, write next state `RETENTION` for the CPU domain,
then for the MPU domain, wait-for-interrupt, write next state `ON` for the MPU
domain, then for the CPU domain, read the cluster register again (`r7`), write
that value with bit `0x2` cleared and every other bit unchanged. -/
theorem omap4_pm_suspend_sequence {σ : Type} (hal : Hal σ)
    (cpu0_pwrdm mpu_pwrdm : powerdomain) (hw : σ) :
    (omap4_pm_suspend hal cpu0_pwrdm mpu_pwrdm { hw := hw, trace := [] }).1 = 0 ∧
    ∃ r0 r1 r2 r3 r4 r5 r6 r7 r8 : Int,
      r0 = (hal.exec (.omap_readl SCU_PWR_ST) hw).1 ∧
      (omap4_pm_suspend hal cpu0_pwrdm mpu_pwrdm { hw := hw, trace := [] }).2.trace
        = [{ call := .omap_readl SCU_PWR_ST, ret := r0 },
           { call := .omap_writel (toU32 r0 ||| 0x2) SCU_PWR_ST, ret := r1 },
           { call := .pwrdm_set_next_pwrst cpu0_pwrdm PWRDM_POWER_RET, ret := r2 },
           { call := .pwrdm_set_next_pwrst mpu_pwrdm PWRDM_POWER_RET, ret := r3 },
           { call := .wfi, ret := r4 },
           { call := .pwrdm_set_next_pwrst mpu_pwrdm PWRDM_POWER_ON, ret := r5 },
           { call := .pwrdm_set_next_pwrst cpu0_pwrdm PWRDM_POWER_ON, ret := r6 },
           { call := .omap_readl SCU_PWR_ST, ret := r7 },
           { call := .omap_writel (toU32 r7 &&& 0xFFFFFFFD) SCU_PWR_ST, ret := r8 }] ∧
      (toU32 r7 &&& 0xFFFFFFFD) &&& 0x2 = 0 ∧
      ∀ i, i ≠ 1 → (toU32 r7 &&& 0xFFFFFFFD).testBit i = (toU32 r7).testBit i := by
  refine ⟨rfl, _, _, _, _, _, _, _, _, _, rfl, rfl, clear_bit_and _, ?_⟩
  intro i hi
  rw [clear_bit_testBit _ (toU32_lt _)]
  simp [hi]

/-! ## C9: how the suspend sequence makes its domain requests -/

/-- C9, as stated, fails: on the simulated hardware the suspend sequence does
not have the hardware effects the same sequence has with its four requests
made through `set_pwrdm_state`.  With both domains already programmed to
`RETENTION`, the source writes the next state where `set_pwrdm_state` would
only read it and skip; and for a CPU domain supporting `ON` only, the source
writes `RETENTION` where `set_pwrdm_state` would make no hardware call at
all. -/
theorem omap4_pm_suspend_not_via_request :
    calls_of (omap4_pm_suspend simHal dom_cpu0 dom_on_ret
        { hw := hw_all_ret, trace := [] }).2
      ≠ calls_of (omap4_pm_suspend_via_request simHal dom_cpu0 dom_on_ret
        { hw := hw_all_ret, trace := [] }).2 ∧
    HwCall.pwrdm_read_next_pwrst dom_cpu0 ∈
      calls_of (omap4_pm_suspend_via_request simHal dom_cpu0 dom_on_ret
        { hw := hw_all_ret, trace := [] }).2 ∧
    HwCall.pwrdm_read_next_pwrst dom_cpu0 ∉
      calls_of (omap4_pm_suspend simHal dom_cpu0 dom_on_ret
        { hw := hw_all_ret, trace := [] }).2 ∧
    HwCall.pwrdm_set_next_pwrst dom_on_only PWRDM_POWER_RET ∈
      calls_of (omap4_pm_suspend simHal dom_on_only dom_on_ret
        { hw := hw_all_on, trace := [] }).2 ∧
    calls_of (set_pwrdm_state simHal (.valid dom_on_only) PWRDM_POWER_RET
        { hw := hw_all_on, trace := [] }).2 = [] := by
  decide

/-- C9, amended: the suspend sequence makes its four domain requests as direct
next-state writes, not through `set_pwrdm_state`: for every hardware layer and
hardware state, the domain and clock-domain calls of `omap4_pm_suspend` are
exactly the four `pwrdm_set_next_pwrst` calls (CPU and MPU to `RETENTION`, MPU
and CPU to `ON`), each writing the requested state itself; there is no clamp,
no next-state or current-state read, no clock-domain wake or allow-idle, no
wait and no state switch. -/
theorem omap4_pm_suspend_direct_writes {σ : Type} (hal : Hal σ)
    (cpu0_pwrdm mpu_pwrdm : powerdomain) (hw : σ) :
    (calls_of (omap4_pm_suspend hal cpu0_pwrdm mpu_pwrdm
        { hw := hw, trace := [] }).2).filter is_domain_call
      = [.pwrdm_set_next_pwrst cpu0_pwrdm PWRDM_POWER_RET,
         .pwrdm_set_next_pwrst mpu_pwrdm PWRDM_POWER_RET,
         .pwrdm_set_next_pwrst mpu_pwrdm PWRDM_POWER_ON,
         .pwrdm_set_next_pwrst cpu0_pwrdm PWRDM_POWER_ON] := rfl

/-! ## C7: suspend/resume round trip -/

/-- The results of the two `ON` writes of `omap4_pm_suspend` are recorded in
its trace. -/
theorem omap4_pm_suspend_on_writes {σ : Type} (hal : Hal σ)
    (cpu0_pwrdm mpu_pwrdm : powerdomain) (hw : σ) :
    ({ call := .pwrdm_set_next_pwrst mpu_pwrdm PWRDM_POWER_ON,
       ret := (hal.exec (.pwrdm_set_next_pwrst mpu_pwrdm PWRDM_POWER_ON)
          (replay hal
            [.omap_readl SCU_PWR_ST,
             .omap_writel (reg_value hal hw SCU_PWR_ST ||| 0x2) SCU_PWR_ST,
             .pwrdm_set_next_pwrst cpu0_pwrdm PWRDM_POWER_RET,
             .pwrdm_set_next_pwrst mpu_pwrdm PWRDM_POWER_RET,
             .wfi] hw)).1 } : HwEvent) ∈
      (omap4_pm_suspend hal cpu0_pwrdm mpu_pwrdm { hw := hw, trace := [] }).2.trace ∧
    ({ call := .pwrdm_set_next_pwrst cpu0_pwrdm PWRDM_POWER_ON,
       ret := (hal.exec (.pwrdm_set_next_pwrst cpu0_pwrdm PWRDM_POWER_ON)
          (replay hal
            [.omap_readl SCU_PWR_ST,
             .omap_writel (reg_value hal hw SCU_PWR_ST ||| 0x2) SCU_PWR_ST,
             .pwrdm_set_next_pwrst cpu0_pwrdm PWRDM_POWER_RET,
             .pwrdm_set_next_pwrst mpu_pwrdm PWRDM_POWER_RET,
             .wfi,
             .pwrdm_set_next_pwrst mpu_pwrdm PWRDM_POWER_ON] hw)).1 } : HwEvent) ∈
      (omap4_pm_suspend hal cpu0_pwrdm mpu_pwrdm { hw := hw, trace := [] }).2.trace := by
  constructor
  · exact List.mem_cons_of_mem _ (List.mem_cons_of_mem _ (List.mem_cons_of_mem _
      (List.mem_cons_of_mem _ (List.mem_cons_of_mem _ (List.mem_cons_self _ _)))))
  · exact List.mem_cons_of_mem _ (List.mem_cons_of_mem _ (List.mem_cons_of_mem _
      (List.mem_cons_of_mem _ (List.mem_cons_of_mem _ (List.mem_cons_of_mem _
        (List.mem_cons_self _ _))))))

/-- C7: suspend/resume round trip.  Over a hardware layer whose next-state
read returns the last successfully written value and whose registers read as
the last value written (nothing else, the wait-for-interrupt included, changes
the cluster register), starting with bit `0x2` of the cluster register clear
(and whatever the domains' states, `ON` in particular), if the depth is an
accepted one and every next-state write of the run succeeds, then
`omap4_pm_enter` returns `0`, leaves the next state of the CPU and of the MPU
domain at `ON` and the cluster register equal to its value `v` before the
call; the calls are the nine of the suspend sequence, the first register write
storing `v | 0x2` and the last one storing `v`; and the register reads as
`v | 0x2` (bit set) exactly after the first register write and until the last
one: before the first write and after the last it reads as `v` (bit clear). -/
theorem omap4_pm_enter_round_trip {σ : Type} (hal : Hal σ)
    (nlaws : NextStateLaws hal) (rlaws : RegisterLaws hal)
    (cpu0_pwrdm mpu_pwrdm : powerdomain) (suspend_state : Int)
    (hacc : suspend_state = PM_SUSPEND_STANDBY ∨ suspend_state = PM_SUSPEND_MEM)
    (hw : σ) (hbit : reg_value hal hw SCU_PWR_ST &&& 0x2 = 0)
    (hok : ∀ e ∈ (omap4_pm_enter hal cpu0_pwrdm mpu_pwrdm suspend_state
        { hw := hw, trace := [] }).2.trace,
      is_next_state_write e.call = true → e.ret = 0) :
    (omap4_pm_enter hal cpu0_pwrdm mpu_pwrdm suspend_state { hw := hw, trace := [] }).1 = 0 ∧
    next_pwrst hal (omap4_pm_enter hal cpu0_pwrdm mpu_pwrdm suspend_state { hw := hw, trace := [] }).2.hw cpu0_pwrdm = PWRDM_POWER_ON ∧
    next_pwrst hal (omap4_pm_enter hal cpu0_pwrdm mpu_pwrdm suspend_state { hw := hw, trace := [] }).2.hw mpu_pwrdm = PWRDM_POWER_ON ∧
    reg_value hal (omap4_pm_enter hal cpu0_pwrdm mpu_pwrdm suspend_state { hw := hw, trace := [] }).2.hw SCU_PWR_ST = reg_value hal hw SCU_PWR_ST ∧
    calls_of (omap4_pm_enter hal cpu0_pwrdm mpu_pwrdm suspend_state { hw := hw, trace := [] }).2
      = [(.omap_readl SCU_PWR_ST : HwCall),
         .omap_writel (reg_value hal hw SCU_PWR_ST ||| 0x2) SCU_PWR_ST,
         .pwrdm_set_next_pwrst cpu0_pwrdm PWRDM_POWER_RET,
         .pwrdm_set_next_pwrst mpu_pwrdm PWRDM_POWER_RET,
         .wfi,
         .pwrdm_set_next_pwrst mpu_pwrdm PWRDM_POWER_ON,
         .pwrdm_set_next_pwrst cpu0_pwrdm PWRDM_POWER_ON,
         .omap_readl SCU_PWR_ST,
         .omap_writel (reg_value hal hw SCU_PWR_ST) SCU_PWR_ST] ∧
    (reg_value hal hw SCU_PWR_ST ||| 0x2) &&& 0x2 = 0x2 ∧
    ∀ k, k ≤ 9 →
      reg_value hal (replay hal ((calls_of (omap4_pm_enter hal cpu0_pwrdm mpu_pwrdm suspend_state { hw := hw, trace := [] }).2).take k) hw) SCU_PWR_ST
        = if 2 ≤ k ∧ k ≤ 8 then reg_value hal hw SCU_PWR_ST ||| 0x2
          else reg_value hal hw SCU_PWR_ST := by
  have henter : (omap4_pm_enter hal cpu0_pwrdm mpu_pwrdm suspend_state { hw := hw, trace := [] })
      = (omap4_pm_suspend hal cpu0_pwrdm mpu_pwrdm { hw := hw, trace := [] }) := by
    unfold omap4_pm_enter
    rw [if_pos hacc]
  rw [henter] at hok ⊢
  have hv : reg_value hal hw SCU_PWR_ST < 4294967296 := toU32_lt _
  have hv2 : reg_value hal hw SCU_PWR_ST ||| 0x2 < 4294967296 :=
    Nat.or_lt_two_pow (n := 32) hv (by norm_num)
  have hmid : ∀ cs : List HwCall, (∀ c ∈ cs, ∀ v, c ≠ .omap_writel v SCU_PWR_ST) →
      reg_value hal (replay hal
        ([(.omap_readl SCU_PWR_ST : HwCall),
         .omap_writel (reg_value hal hw SCU_PWR_ST ||| 0x2) SCU_PWR_ST] ++ cs) hw) SCU_PWR_ST
        = reg_value hal hw SCU_PWR_ST ||| 0x2 := by
    intro cs hcs
    rw [replay_append, reg_value_replay_frame hal rlaws _ cs _ hcs]
    exact rlaws.write_read _ _ _ hv2
  have hv7 : reg_value hal (replay hal
      [(.omap_readl SCU_PWR_ST : HwCall),
         .omap_writel (reg_value hal hw SCU_PWR_ST ||| 0x2) SCU_PWR_ST,
         .pwrdm_set_next_pwrst cpu0_pwrdm PWRDM_POWER_RET,
         .pwrdm_set_next_pwrst mpu_pwrdm PWRDM_POWER_RET,
         .wfi,
         .pwrdm_set_next_pwrst mpu_pwrdm PWRDM_POWER_ON,
         .pwrdm_set_next_pwrst cpu0_pwrdm PWRDM_POWER_ON] hw) SCU_PWR_ST
      = reg_value hal hw SCU_PWR_ST ||| 0x2 :=
    hmid [.pwrdm_set_next_pwrst cpu0_pwrdm PWRDM_POWER_RET,
         .pwrdm_set_next_pwrst mpu_pwrdm PWRDM_POWER_RET,
         .wfi,
         .pwrdm_set_next_pwrst mpu_pwrdm PWRDM_POWER_ON,
         .pwrdm_set_next_pwrst cpu0_pwrdm PWRDM_POWER_ON] (by simp)
  have hcalls : calls_of (omap4_pm_suspend hal cpu0_pwrdm mpu_pwrdm { hw := hw, trace := [] }).2
      = [(.omap_readl SCU_PWR_ST : HwCall),
         .omap_writel (reg_value hal hw SCU_PWR_ST ||| 0x2) SCU_PWR_ST,
         .pwrdm_set_next_pwrst cpu0_pwrdm PWRDM_POWER_RET,
         .pwrdm_set_next_pwrst mpu_pwrdm PWRDM_POWER_RET,
         .wfi,
         .pwrdm_set_next_pwrst mpu_pwrdm PWRDM_POWER_ON,
         .pwrdm_set_next_pwrst cpu0_pwrdm PWRDM_POWER_ON,
         .omap_readl SCU_PWR_ST,
         .omap_writel (reg_value hal hw SCU_PWR_ST) SCU_PWR_ST] := by
    rw [omap4_pm_suspend_calls, hv7, set_then_clear _ hv hbit]
  have hfinal : reg_value hal (omap4_pm_suspend hal cpu0_pwrdm mpu_pwrdm { hw := hw, trace := [] }).2.hw SCU_PWR_ST = reg_value hal hw SCU_PWR_ST := by
    rw [omap4_pm_suspend_hw, hcalls]
    exact rlaws.write_read _ _ _ hv
  have hon : PWRDM_POWER_ON < 4294967296 := by decide
  have h5 := hok _ (omap4_pm_suspend_on_writes hal cpu0_pwrdm mpu_pwrdm hw).1
    rfl
  have h6 := hok _ (omap4_pm_suspend_on_writes hal cpu0_pwrdm mpu_pwrdm hw).2
    rfl
  have hcpu : next_pwrst hal (omap4_pm_suspend hal cpu0_pwrdm mpu_pwrdm { hw := hw, trace := [] }).2.hw cpu0_pwrdm = PWRDM_POWER_ON := by
    rw [omap4_pm_suspend_hw, hcalls]
    have hfr := next_pwrst_replay_frame hal nlaws cpu0_pwrdm
      [.omap_readl SCU_PWR_ST, .omap_writel (reg_value hal hw SCU_PWR_ST) SCU_PWR_ST]
      (replay hal [(.omap_readl SCU_PWR_ST : HwCall),
         .omap_writel (reg_value hal hw SCU_PWR_ST ||| 0x2) SCU_PWR_ST,
         .pwrdm_set_next_pwrst cpu0_pwrdm PWRDM_POWER_RET,
         .pwrdm_set_next_pwrst mpu_pwrdm PWRDM_POWER_RET,
         .wfi,
         .pwrdm_set_next_pwrst mpu_pwrdm PWRDM_POWER_ON,
         .pwrdm_set_next_pwrst cpu0_pwrdm PWRDM_POWER_ON] hw) (by simp)
    exact hfr.trans (nlaws.write_read _ cpu0_pwrdm PWRDM_POWER_ON hon h6)
  have hmpu : next_pwrst hal (omap4_pm_suspend hal cpu0_pwrdm mpu_pwrdm { hw := hw, trace := [] }).2.hw mpu_pwrdm = PWRDM_POWER_ON := by
    by_cases hd : cpu0_pwrdm = mpu_pwrdm
    · subst hd
      exact hcpu
    · rw [omap4_pm_suspend_hw, hcalls]
      have hfr := next_pwrst_replay_frame hal nlaws mpu_pwrdm
        [.pwrdm_set_next_pwrst cpu0_pwrdm PWRDM_POWER_ON,
         .omap_readl SCU_PWR_ST, .omap_writel (reg_value hal hw SCU_PWR_ST) SCU_PWR_ST]
        (replay hal [(.omap_readl SCU_PWR_ST : HwCall),
         .omap_writel (reg_value hal hw SCU_PWR_ST ||| 0x2) SCU_PWR_ST,
         .pwrdm_set_next_pwrst cpu0_pwrdm PWRDM_POWER_RET,
         .pwrdm_set_next_pwrst mpu_pwrdm PWRDM_POWER_RET,
         .wfi,
         .pwrdm_set_next_pwrst mpu_pwrdm PWRDM_POWER_ON] hw) (by simp [hd])
      exact hfr.trans (nlaws.write_read _ mpu_pwrdm PWRDM_POWER_ON hon h5)
  refine ⟨rfl, hcpu, hmpu, hfinal, hcalls, set_bit_and _, ?_⟩
  intro k hk
  rw [hcalls]
  interval_cases k
  · rw [if_neg (by decide)]
    rfl
  · rw [if_neg (by decide)]
    exact rlaws.frame hw _ _ (by simp)
  · rw [if_pos (by decide)]
    exact hmid [] (by simp)
  · rw [if_pos (by decide)]
    exact hmid [.pwrdm_set_next_pwrst cpu0_pwrdm PWRDM_POWER_RET] (by simp)
  · rw [if_pos (by decide)]
    exact hmid [.pwrdm_set_next_pwrst cpu0_pwrdm PWRDM_POWER_RET,
         .pwrdm_set_next_pwrst mpu_pwrdm PWRDM_POWER_RET] (by simp)
  · rw [if_pos (by decide)]
    exact hmid [.pwrdm_set_next_pwrst cpu0_pwrdm PWRDM_POWER_RET,
         .pwrdm_set_next_pwrst mpu_pwrdm PWRDM_POWER_RET,
         .wfi] (by simp)
  · rw [if_pos (by decide)]
    exact hmid [.pwrdm_set_next_pwrst cpu0_pwrdm PWRDM_POWER_RET,
         .pwrdm_set_next_pwrst mpu_pwrdm PWRDM_POWER_RET,
         .wfi,
         .pwrdm_set_next_pwrst mpu_pwrdm PWRDM_POWER_ON] (by simp)
  · rw [if_pos (by decide)]
    exact hmid [.pwrdm_set_next_pwrst cpu0_pwrdm PWRDM_POWER_RET,
         .pwrdm_set_next_pwrst mpu_pwrdm PWRDM_POWER_RET,
         .wfi,
         .pwrdm_set_next_pwrst mpu_pwrdm PWRDM_POWER_ON,
         .pwrdm_set_next_pwrst cpu0_pwrdm PWRDM_POWER_ON] (by simp)
  · rw [if_pos (by decide)]
    exact hmid [.pwrdm_set_next_pwrst cpu0_pwrdm PWRDM_POWER_RET,
         .pwrdm_set_next_pwrst mpu_pwrdm PWRDM_POWER_RET,
         .wfi,
         .pwrdm_set_next_pwrst mpu_pwrdm PWRDM_POWER_ON,
         .pwrdm_set_next_pwrst cpu0_pwrdm PWRDM_POWER_ON,
         .omap_readl SCU_PWR_ST] (by simp)
  · rw [if_neg (by decide)]
    rw [omap4_pm_suspend_hw, hcalls] at hfinal
    exact hfinal

/-- Witness of C7: the simulated hardware with both domains at `ON`, writes
accepted and the cluster register at `0x101`, entered at depth
`PM_SUSPEND_MEM`. -/
theorem omap4_pm_enter_round_trip_witness :
    next_pwrst simHal hw_all_on dom_cpu0 = PWRDM_POWER_ON ∧
    next_pwrst simHal hw_all_on dom_on_ret = PWRDM_POWER_ON ∧
    next_pwrst simHal (omap4_pm_enter simHal dom_cpu0 dom_on_ret PM_SUSPEND_MEM
      { hw := hw_all_on, trace := [] }).2.hw dom_cpu0 = PWRDM_POWER_ON ∧
    next_pwrst simHal (omap4_pm_enter simHal dom_cpu0 dom_on_ret PM_SUSPEND_MEM
      { hw := hw_all_on, trace := [] }).2.hw dom_on_ret = PWRDM_POWER_ON ∧
    reg_value simHal (omap4_pm_enter simHal dom_cpu0 dom_on_ret PM_SUSPEND_MEM
      { hw := hw_all_on, trace := [] }).2.hw SCU_PWR_ST
      = reg_value simHal hw_all_on SCU_PWR_ST :=
  ⟨by decide, by decide,
   (omap4_pm_enter_round_trip simHal simHal_nextStateLaws simHal_registerLaws
      dom_cpu0 dom_on_ret PM_SUSPEND_MEM (Or.inr rfl) hw_all_on (by decide)
      (by decide)).2.1,
   (omap4_pm_enter_round_trip simHal simHal_nextStateLaws simHal_registerLaws
      dom_cpu0 dom_on_ret PM_SUSPEND_MEM (Or.inr rfl) hw_all_on (by decide)
      (by decide)).2.2.1,
   (omap4_pm_enter_round_trip simHal simHal_nextStateLaws simHal_registerLaws
      dom_cpu0 dom_on_ret PM_SUSPEND_MEM (Or.inr rfl) hw_all_on (by decide)
      (by decide)).2.2.2.1⟩

/-! ## C13: no supported state at or below the request -/

/-- C13: for every valid domain `p`, every requested state `S` (in particular
`OFF`, `RETENTION`, `INACTIVE`, `ON`) and every machine state: when no state at
or below `S` is supported by `p`, `set_pwrdm_state(p, S)` returns `0` and
leaves the hardware and the trace of hardware calls exactly as they were (no
call at all), so the next state and the current state read as before; and
when some supported state at or below `S` exists, the rest of the function
runs with the greatest such state as its target. -/
theorem set_pwrdm_state_no_supported_state {σ : Type} (hal : Hal σ)
    (p : powerdomain) (S : Nat) (s : Run σ) :
    ((∀ T, T ≤ S → pwrsts_has p.pwrsts T = false) →
      set_pwrdm_state hal (.valid p) S s = (0, s) ∧
      (set_pwrdm_state hal (.valid p) S s).2.trace = s.trace ∧
      next_pwrst hal (set_pwrdm_state hal (.valid p) S s).2.hw p = next_pwrst hal s.hw p ∧
      cur_pwrst hal (set_pwrdm_state hal (.valid p) S s).2.hw p = cur_pwrst hal s.hw p) ∧
    ((∃ T, T ≤ S ∧ pwrsts_has p.pwrsts T = true) →
      ∃ t, t ≤ S ∧ pwrsts_has p.pwrsts t = true ∧
        (∀ u, u ≤ S → pwrsts_has p.pwrsts u = true → u ≤ t) ∧
        set_pwrdm_state hal (.valid p) S s = set_pwrdm_state_tail hal p t s) := by
  constructor
  · intro hno
    have hc := (clamp_state_none p.pwrsts S).mpr hno
    rw [set_pwrdm_state_valid_none hal p S s hc]
    exact ⟨rfl, rfl, rfl, rfl⟩
  · rintro ⟨T, hT1, hT2⟩
    cases hc : clamp_state p.pwrsts S with
    | none =>
      have := (clamp_state_none p.pwrsts S).mp hc T hT1
      rw [this] at hT2
      exact absurd hT2 (by decide)
    | some t =>
      obtain ⟨h1, h2, h3⟩ := clamp_state_some p.pwrsts S t hc
      refine ⟨t, h2, h1, ?_, set_pwrdm_state_valid_some hal p S t s hc⟩
      intro u hu1 hu2
      by_contra hlt
      have := h3 u (by omega) hu1
      rw [this] at hu2
      exact absurd hu2 (by decide)

/-- Witness of C13: the `ON`-only domain asked for `RETENTION` on the
simulated hardware is left untouched; the `ON`/`RETENTION` domain asked for
`INACTIVE` continues with a target at or below `INACTIVE`. -/
theorem set_pwrdm_state_no_supported_state_witness :
    set_pwrdm_state simHal (.valid dom_on_only) PWRDM_POWER_RET
        { hw := hw_all_on, trace := [] } = (0, { hw := hw_all_on, trace := [] }) ∧
    ∃ t, t ≤ PWRDM_POWER_INACTIVE ∧ pwrsts_has dom_on_ret.pwrsts t = true ∧
      (∀ u, u ≤ PWRDM_POWER_INACTIVE → pwrsts_has dom_on_ret.pwrsts u = true → u ≤ t) ∧
      set_pwrdm_state simHal (.valid dom_on_ret) PWRDM_POWER_INACTIVE
          { hw := hw_all_on, trace := [] }
        = set_pwrdm_state_tail simHal dom_on_ret t { hw := hw_all_on, trace := [] } :=
  ⟨((set_pwrdm_state_no_supported_state simHal dom_on_only PWRDM_POWER_RET
      { hw := hw_all_on, trace := [] }).1 (by decide)).1,
   (set_pwrdm_state_no_supported_state simHal dom_on_ret PWRDM_POWER_INACTIVE
      { hw := hw_all_on, trace := [] }).2 ⟨PWRDM_POWER_RET, by decide, by decide⟩⟩

/-! ## C14: termination of the clamp loop -/

theorem u32_dec_succ (n : Nat) (h : n + 1 < 4294967296) : u32_dec (n + 1) = n := by
  unfold u32_dec
  omega

theorem clamp_state_of_has (pwrsts state : Nat) (h : pwrsts_has pwrsts state = true) :
    clamp_state pwrsts state = some state := by
  cases state with
  | zero =>
    unfold clamp_state
    rw [if_pos h]
  | succ n =>
    unfold clamp_state
    rw [if_pos h]

theorem clamp_state_succ_of_not_has (pwrsts n : Nat)
    (h : ¬ pwrsts_has pwrsts (n + 1) = true) :
    clamp_state pwrsts (n + 1) = clamp_state pwrsts n := by
  conv_lhs => unfold clamp_state
  rw [if_neg h]

/-- The states the loop visits from `s` with `d` decrements: `s, s-1, ..`. -/
theorem range_map_sub_succ (n d : Nat) :
    (List.range (d + 1 + 1)).map (fun i => n + 1 - i)
      = (n + 1) :: (List.range (d + 1)).map (fun i => n - i) := by
  rw [List.range_succ_eq_map, List.map_cons, List.map_map]
  congr 1
  apply List.map_congr_left
  intro i _
  simp

/-- With more fuel than the requested state, the machine loop is left, after
at most `s` decrements, having visited `s, s-1, ..`, with the result of
`clamp_state`. -/
theorem clamp_loop_spec (pwrsts : Nat) :
    ∀ (fuel s : Nat), s < fuel → s < 4294967296 →
      ∃ r, clamp_loop pwrsts fuel s = some r ∧ r.decrements ≤ s ∧
        r.shifts = (List.range (r.decrements + 1)).map (fun i => s - i) ∧
        r.result = clamp_state pwrsts s := by
  intro fuel
  induction fuel with
  | zero =>
    intro s hs _
    omega
  | succ f ih =>
    intro s hs hs32
    unfold clamp_loop
    by_cases hhas : pwrsts_has pwrsts s = true
    · rw [if_pos hhas]
      exact ⟨_, rfl, Nat.zero_le _, rfl, (clamp_state_of_has pwrsts s hhas).symm⟩
    · rw [if_neg hhas]
      cases s with
      | zero =>
        rw [if_pos (show 0 = PWRDM_POWER_OFF from rfl)]
        refine ⟨_, rfl, Nat.le_refl _, rfl, ?_⟩
        unfold clamp_state
        rw [if_neg hhas]
      | succ n =>
        rw [if_neg (by unfold PWRDM_POWER_OFF; omega), u32_dec_succ n hs32]
        obtain ⟨r, hr, hd, hsh, hres⟩ := ih n (by omega) (by omega)
        rw [hr]
        refine ⟨_, rfl, by simpa using hd, ?_, ?_⟩
        · show (n + 1) :: r.shifts = _
          rw [hsh, range_map_sub_succ]
        · show r.result = _
          rw [hres, clamp_state_succ_of_not_has pwrsts n hhas]

/-- C14: the clamp loop of `set_pwrdm_state` terminates for every
supported-state mask (the empty one included) and every requested state `s`
with `s < 32`: given more fuel than `s`, the machine loop (32-bit `state`,
wrapping decrement) is left; it has performed at most `s` decrements; the
`i`-th decrement is applied to the positive state `s - i` and gives
`s - (i + 1)`, so `state` never goes below `OFF` and never wraps; the shift
counts of the `1 << state` it evaluated are `s, s-1, ..`, all below 32; and
the loop is left as `clamp_state` says. -/
theorem clamp_loop_terminates (pwrsts s fuel : Nat) (hs : s < 32) (hf : s < fuel) :
    ∃ r, clamp_loop pwrsts fuel s = some r ∧
      r.decrements ≤ s ∧
      (∀ i, i < r.decrements → 0 < s - i ∧ u32_dec (s - i) = s - (i + 1)) ∧
      r.shifts = (List.range (r.decrements + 1)).map (fun i => s - i) ∧
      (∀ c ∈ r.shifts, c < 32) ∧
      r.result = clamp_state pwrsts s := by
  obtain ⟨r, hr, hd, hsh, hres⟩ := clamp_loop_spec pwrsts fuel s hf (by omega)
  refine ⟨r, hr, hd, ?_, hsh, ?_, hres⟩
  · intro i hi
    refine ⟨by omega, ?_⟩
    unfold u32_dec
    omega
  · intro c hc
    rw [hsh, List.mem_map] at hc
    obtain ⟨i, _, hi⟩ := hc
    omega

/-- Witness of C14: the empty mask from `ON`: the loop is left at `OFF` by the
`return` inside, after three decrements. -/
theorem clamp_loop_terminates_witness :
    ∃ r, clamp_loop 0 4 PWRDM_POWER_ON = some r ∧
      r.decrements ≤ PWRDM_POWER_ON ∧
      (∀ i, i < r.decrements →
        0 < PWRDM_POWER_ON - i ∧ u32_dec (PWRDM_POWER_ON - i) = PWRDM_POWER_ON - (i + 1)) ∧
      r.shifts = (List.range (r.decrements + 1)).map (fun i => PWRDM_POWER_ON - i) ∧
      (∀ c ∈ r.shifts, c < 32) ∧
      r.result = clamp_state 0 PWRDM_POWER_ON :=
  clamp_loop_terminates 0 PWRDM_POWER_ON 4 (by decide) (by decide)

/-! ## C11: registration of a power domain -/

theorem kmalloc_run {σ : Type} (k : Kernel σ) : (kmalloc k).2.run = k.run := by
  unfold kmalloc
  split <;> rfl

theorem kmalloc_pwrst_list {σ : Type} (k : Kernel σ) :
    (kmalloc k).2.pwrst_list = k.pwrst_list := by
  unfold kmalloc
  split <;> rfl

/-- The calls of the save/restore step: the capability query, followed by the
enable exactly when the query returned non-zero. -/
theorem calls_of_enable_sar_if_capable {σ : Type} (hal : Hal σ) (pwrdm : powerdomain)
    (s : Run σ) :
    calls_of (enable_sar_if_capable hal pwrdm s)
      = calls_of s ++
        (if (hal.exec (.pwrdm_has_hdwr_sar pwrdm) s.hw).1 ≠ 0 then
          [.pwrdm_has_hdwr_sar pwrdm, .pwrdm_enable_hdwr_sar pwrdm]
        else [.pwrdm_has_hdwr_sar pwrdm]) := by
  unfold enable_sar_if_capable
  simp only [hwcall_fst]
  split_ifs <;> simp [calls_of_hwcall]

/-- The calls recorded up to the next-state write, from any trace. -/
theorem calls_of_before_write_from {σ : Type} (hal : Hal σ) (p : powerdomain)
    (s : Run σ) :
    calls_of (before_write hal p s)
      = calls_of s ++
        (if pwrst_seen hal p s < (PWRDM_POWER_ON : Int) then
          [.pwrdm_read_next_pwrst p, .pwrdm_read_pwrst p,
           .omap2_clkdm_wakeup (p.pwrdm_clkdms.headD 0), .pwrdm_wait_transition p]
        else [.pwrdm_read_next_pwrst p, .pwrdm_read_pwrst p]) := by
  unfold before_write
  split_ifs <;> simp [calls_of_hwcall]

/-- `set_pwrdm_state` never enables hardware save/restore: such a call in the
trace after it was there before it. -/
theorem set_pwrdm_state_no_enable_sar {σ : Type} (hal : Hal σ) (p d : powerdomain)
    (S : Nat) (s : Run σ)
    (h : HwCall.pwrdm_enable_hdwr_sar d ∈ calls_of (set_pwrdm_state hal (.valid p) S s).2) :
    HwCall.pwrdm_enable_hdwr_sar d ∈ calls_of s := by
  cases hc : clamp_state p.pwrsts S with
  | none =>
    rw [set_pwrdm_state_valid_none hal p S s hc] at h
    exact h
  | some t =>
    rw [set_pwrdm_state_valid_some hal p S t s hc] at h
    by_cases hskip : next_pwrst hal s.hw p = t
    · rw [set_pwrdm_state_tail_skip hal p t s hskip] at h
      simpa [calls_of_hwcall] using h
    · by_cases hwz : (hwcall hal (.pwrdm_set_next_pwrst p t) (before_write hal p s)).1 = 0
      · by_cases hsl : pwrst_seen hal p s < (PWRDM_POWER_ON : Int)
        · rw [set_pwrdm_state_tail_sleep hal p t s hskip hsl hwz] at h
          simpa [calls_of_hwcall, calls_of_before_write_from, hsl] using h
        · rw [set_pwrdm_state_tail_awake hal p t s hskip hsl hwz] at h
          simpa [calls_of_hwcall, calls_of_before_write_from, hsl] using h
      · rw [set_pwrdm_state_tail_reject hal p t s hskip hwz] at h
        by_cases hsl : pwrst_seen hal p s < (PWRDM_POWER_ON : Int)
        · simpa [calls_of_hwcall, calls_of_before_write_from, hsl] using h
        · simpa [calls_of_hwcall, calls_of_before_write_from, hsl] using h

/-- The trace `set_pwrdm_state` leaves extends the one it started from. -/
theorem set_pwrdm_state_keeps_calls {σ : Type} (hal : Hal σ) (p : powerdomain)
    (S : Nat) (s : Run σ) (c : HwCall) (h : c ∈ calls_of s) :
    c ∈ calls_of (set_pwrdm_state hal (.valid p) S s).2 := by
  cases hc : clamp_state p.pwrsts S with
  | none =>
    rw [set_pwrdm_state_valid_none hal p S s hc]
    exact h
  | some t =>
    rw [set_pwrdm_state_valid_some hal p S t s hc]
    by_cases hskip : next_pwrst hal s.hw p = t
    · rw [set_pwrdm_state_tail_skip hal p t s hskip]
      simp [calls_of_hwcall, h]
    · by_cases hwz : (hwcall hal (.pwrdm_set_next_pwrst p t) (before_write hal p s)).1 = 0
      · by_cases hsl : pwrst_seen hal p s < (PWRDM_POWER_ON : Int)
        · rw [set_pwrdm_state_tail_sleep hal p t s hskip hsl hwz]
          simp [calls_of_hwcall, calls_of_before_write_from, h]
        · rw [set_pwrdm_state_tail_awake hal p t s hskip hsl hwz]
          simp [calls_of_hwcall, calls_of_before_write_from, h]
      · rw [set_pwrdm_state_tail_reject hal p t s hskip hwz]
        simp [calls_of_hwcall, calls_of_before_write_from, h]

/-- The result of `pwrdms_setup` for a domain with a non-zero mask when the
allocation succeeds. -/
theorem pwrdms_setup_of_alloc {σ : Type} (hal : Hal σ) (pwrdm : powerdomain)
    (k : Kernel σ) (h0 : pwrdm.pwrsts ≠ 0) (ha : (kmalloc k).1 = true) :
    pwrdms_setup hal pwrdm k
      = ((set_pwrdm_state hal (.valid pwrdm) PWRDM_POWER_RET
            (enable_sar_if_capable hal pwrdm k.run)).1,
         { run := (set_pwrdm_state hal (.valid pwrdm) PWRDM_POWER_RET
              (enable_sar_if_capable hal pwrdm k.run)).2,
           pwrst_list := { pwrdm := pwrdm, next_state := PWRDM_POWER_RET } :: k.pwrst_list,
           kmalloc_results := (kmalloc k).2.kmalloc_results }) := by
  unfold pwrdms_setup
  rw [if_neg h0]
  simp only [ha, kmalloc_run, kmalloc_pwrst_list]
  rfl

/-- The result of `pwrdms_setup` for a domain with a non-zero mask when the
allocation fails. -/
theorem pwrdms_setup_of_nomem {σ : Type} (hal : Hal σ) (pwrdm : powerdomain)
    (k : Kernel σ) (h0 : pwrdm.pwrsts ≠ 0) (ha : (kmalloc k).1 = false) :
    pwrdms_setup hal pwrdm k = (-ENOMEM, (kmalloc k).2) := by
  unfold pwrdms_setup
  rw [if_neg h0]
  simp only [ha, if_true]

/-- A failed allocation in `pwrdms_setup`: the function returns `-ENOMEM`
before `list_add` and before any hardware call, so the registry, the hardware
and the trace of hardware calls are as they were. -/
theorem pwrdms_setup_nomem_unchanged {σ : Type} (hal : Hal σ) (pwrdm : powerdomain)
    (k : Kernel σ) (h0 : pwrdm.pwrsts ≠ 0) (ha : (kmalloc k).1 = false) :
    (pwrdms_setup hal pwrdm k).1 = -ENOMEM ∧
    (pwrdms_setup hal pwrdm k).2.pwrst_list = k.pwrst_list ∧
    (pwrdms_setup hal pwrdm k).2.run = k.run := by
  rw [pwrdms_setup_of_nomem hal pwrdm k h0 ha]
  exact ⟨rfl, kmalloc_pwrst_list k, kmalloc_run k⟩

/-- C11: `pwrdms_setup` (RegisterDomain).  For a domain whose mask of
supported states is empty (`pwrsts == 0`) it returns `0` and leaves the
registry, the hardware and the trace of hardware calls as they were.  For a
domain with a non-empty mask, when the allocation succeeds: the registry is
the old one with exactly one new entry, for that domain, with next state
`RETENTION`; the calls before the state request are the capability query,
followed by the enable of hardware save/restore exactly when the query
returned non-zero, and no other enable is made; and the result and the
machine state are exactly those of `set_pwrdm_state(domain, RETENTION)` run
after that step. -/
theorem pwrdms_setup_registers {σ : Type} (hal : Hal σ) (pwrdm : powerdomain)
    (k : Kernel σ) :
    (pwrdm.pwrsts = 0 → pwrdms_setup hal pwrdm k = (0, k)) ∧
    (pwrdm.pwrsts ≠ 0 → (kmalloc k).1 = true →
      (pwrdms_setup hal pwrdm k).2.pwrst_list
        = { pwrdm := pwrdm, next_state := PWRDM_POWER_RET } :: k.pwrst_list ∧
      calls_of (enable_sar_if_capable hal pwrdm k.run)
        = calls_of k.run ++
          (if (hal.exec (.pwrdm_has_hdwr_sar pwrdm) k.run.hw).1 ≠ 0 then
            [.pwrdm_has_hdwr_sar pwrdm, .pwrdm_enable_hdwr_sar pwrdm]
          else [.pwrdm_has_hdwr_sar pwrdm]) ∧
      (HwCall.pwrdm_enable_hdwr_sar pwrdm ∈ calls_of (pwrdms_setup hal pwrdm k).2.run ↔
        HwCall.pwrdm_enable_hdwr_sar pwrdm ∈ calls_of k.run ∨
          (hal.exec (.pwrdm_has_hdwr_sar pwrdm) k.run.hw).1 ≠ 0) ∧
      (pwrdms_setup hal pwrdm k).1
        = (set_pwrdm_state hal (.valid pwrdm) PWRDM_POWER_RET
            (enable_sar_if_capable hal pwrdm k.run)).1 ∧
      (pwrdms_setup hal pwrdm k).2.run
        = (set_pwrdm_state hal (.valid pwrdm) PWRDM_POWER_RET
            (enable_sar_if_capable hal pwrdm k.run)).2) := by
  constructor
  · intro h0
    unfold pwrdms_setup
    rw [if_pos h0]
  · intro h0 ha
    rw [pwrdms_setup_of_alloc hal pwrdm k h0 ha]
    refine ⟨rfl, calls_of_enable_sar_if_capable hal pwrdm k.run, ?_, rfl, rfl⟩
    constructor
    · intro h
      have h2 := set_pwrdm_state_no_enable_sar hal pwrdm pwrdm PWRDM_POWER_RET _ h
      rw [calls_of_enable_sar_if_capable] at h2
      by_cases hq : (hal.exec (.pwrdm_has_hdwr_sar pwrdm) k.run.hw).1 = 0
      · left
        simpa [hq] using h2
      · right
        exact hq
    · intro h
      apply set_pwrdm_state_keeps_calls
      rw [calls_of_enable_sar_if_capable]
      rcases h with h | h
      · simp [h]
      · simp [h]

/-- Witness of C11: on the simulated hardware at startup the `ON`/`RETENTION`
domain, which has hardware save/restore, gets one registry entry with next
state `RETENTION`, and the enable call is made. -/
theorem pwrdms_setup_registers_witness :
    (pwrdms_setup simHal dom_on_ret kernel_boot).2.pwrst_list
      = [{ pwrdm := dom_on_ret, next_state := PWRDM_POWER_RET }] ∧
    (HwCall.pwrdm_enable_hdwr_sar dom_on_ret ∈
        calls_of (pwrdms_setup simHal dom_on_ret kernel_boot).2.run ↔
      HwCall.pwrdm_enable_hdwr_sar dom_on_ret ∈ calls_of kernel_boot.run ∨
        (simHal.exec (.pwrdm_has_hdwr_sar dom_on_ret) kernel_boot.run.hw).1 ≠ 0) ∧
    (pwrdms_setup simHal dom_on_ret kernel_boot).1
      = (set_pwrdm_state simHal (.valid dom_on_ret) PWRDM_POWER_RET
          (enable_sar_if_capable simHal dom_on_ret kernel_boot.run)).1 :=
  ⟨((pwrdms_setup_registers simHal dom_on_ret kernel_boot).2 (by decide) (by decide)).1,
   ((pwrdms_setup_registers simHal dom_on_ret kernel_boot).2 (by decide) (by decide)).2.2.1,
   ((pwrdms_setup_registers simHal dom_on_ret kernel_boot).2 (by decide) (by decide)).2.2.2.1⟩

end Pm44xx
